import Mathlib

/-
  Verification of the carbon-credit token ledger (`src/token.rs`,
  `src/lib.rs`, `src/retirement.rs`).

  The storage hash maps of the contract (`StorageHashMap`) are embedded as
  association lists with first-match lookup, replace-or-append insertion
  (mirroring `HashMap::insert`) and first-match removal (mirroring
  `HashMap::take`).  Machine integers (`CarbonUnit = u64`, `TokenId = u32`,
  `Year = u16`) are embedded as `Nat`; the one place where the bit width of
  `u64` is semantically relevant — the bitwise complement `!balance` in
  `transfer_token_compounded` — is modelled explicitly modulo `2 ^ 64`.
  Account identifiers (32-byte arrays) are embedded as `Nat`, with the
  blackhole address `[0x00; 32]` as `0`.

  Every mutating operation takes the `Tracker` state and returns the result
  together with the successor state; mutations that the Rust code performs
  before an early `return Err(..)` are faithfully retained in the returned
  state (the code works on `&mut self`).
-/

set_option maxHeartbeats 1000000

/-- First-match lookup in an association list (embeds `HashMap::get`). -/
def afind {κ α : Type} [DecidableEq κ] : List (κ × α) → κ → Option α
  | [], _ => none
  | (k, v) :: rest, key => if k = key then some v else afind rest key

/-- Replace-or-append insertion (embeds `HashMap::insert`). -/
def ainsert {κ α : Type} [DecidableEq κ] : List (κ × α) → κ → α → List (κ × α)
  | [], key, val => [(key, val)]
  | (k, v) :: rest, key, val =>
      if k = key then (key, val) :: rest else (k, v) :: ainsert rest key val

/-- First-match removal (embeds `HashMap::take`, dropping the value). -/
def aerase {κ α : Type} [DecidableEq κ] : List (κ × α) → κ → List (κ × α)
  | [], _ => []
  | (k, v) :: rest, key => if k = key then rest else (k, v) :: aerase rest key

/-- `error.rs`: the flat error taxonomy `Message` (re-exported as
`OperationError`). -/
inductive OperationError where
  | BlockchainCorrupted
  | CannotTransferZeroCarbonUnit
  | CustodianAlreadyRegistered
  | CustodianNotFound
  | InsufficientCarbonUnit
  | RetirementReportNotFound
  | TokenAlreadyMinted
  | TokenMintRequestAlreadyPending
  | TokenMintRequestNotFound
  | TokenNotFound
  | Unauthorized
deriving DecidableEq, Repr

/-- `token.rs`: `MintRequestParams`. -/
structure MintRequestParams where
  registry_id : String
  verified_carbon_unit : Nat
  issuance_year : Nat
  beneficiary : Nat
deriving DecidableEq, Repr

/-- `token.rs`: `TokenEdition`, an (edition id, amount) pair. -/
structure TokenEdition where
  id : Nat
  amount : Nat
deriving DecidableEq, Repr

/-- `token.rs`: `Detail`, the per-edition metadata record. -/
structure Detail where
  id : Nat
  block_number : Nat
  timestamp : Nat
  minter : Nat
  supply : Nat
  retired : Nat
  year : Nat
  registry_id : String
deriving DecidableEq, Repr, Inhabited

/-- `token.rs`: the `Tracker` storage struct (the MintLedger state). -/
structure Tracker where
  next_token_id : Nat
  last_minted_token_id : Option Nat
  minted_editions : List (Nat × Detail)
  pending_mint_editions : List (String × (Detail × Nat))
  balances : List (Nat × List (Nat × Nat))
  year_mapping : List (Nat × List Nat)
deriving DecidableEq, Repr

/-- `token.rs`: `TokenBalanceDetail`. -/
structure TokenBalanceDetail where
  balance : Nat
  detail : Detail
deriving DecidableEq, Repr

/-- The default (`Tracker::default()`) state: all maps empty, counter 0. -/
def initTracker : Tracker :=
  { next_token_id := 0
    last_minted_token_id := none
    minted_editions := []
    pending_mint_editions := []
    balances := []
    year_mapping := [] }

/-- `utils.rs`: `get_blackhole_address`, the all-zero account. -/
def get_blackhole_address : Nat := 0

/-- `token.rs` line 57: `take_next_token_id`. -/
def take_next_token_id (t : Tracker) : Nat × Tracker :=
  (t.next_token_id, { t with next_token_id := t.next_token_id + 1 })

/-- `token.rs` line 64: `insert_pending_mint`.  `bn`/`ts` are the ambient
block number and timestamp read from the environment. -/
def insert_pending_mint (t : Tracker) (minter : Nat) (params : MintRequestParams)
    (bn ts : Nat) : Except OperationError Unit × Tracker :=
  if (afind t.pending_mint_editions params.registry_id).isSome then
    (.error .TokenMintRequestAlreadyPending, t)
  else
    let t1 := (take_next_token_id t).2
    let detail : Detail :=
      { id := (take_next_token_id t).1
        registry_id := params.registry_id
        supply := params.verified_carbon_unit
        retired := 0
        year := params.issuance_year
        minter := minter
        block_number := bn
        timestamp := ts }
    let new_pending :=
      ainsert t1.pending_mint_editions params.registry_id (detail, params.beneficiary)
    (.ok (), { t1 with pending_mint_editions := new_pending })

/-- `token.rs` line 89: `deny_pending_mint`. -/
def deny_pending_mint (t : Tracker) (registry_id : String) :
    Except OperationError Nat × Tracker :=
  match afind t.pending_mint_editions registry_id with
  | none => (.error .TokenMintRequestNotFound, t)
  | some (detail, _) =>
      (.ok detail.minter,
       { t with pending_mint_editions := aerase t.pending_mint_editions registry_id })

/-- `token.rs` line 99: `approve_pending_mint`. -/
def approve_pending_mint (t : Tracker) (registry_id : String) :
    Except OperationError (Nat × Nat × Nat × Nat) × Tracker :=
  match afind t.pending_mint_editions registry_id with
  | none => (.error .TokenMintRequestNotFound, t)
  | some (detail, target_account_id) =>
      let t1 := { t with
        pending_mint_editions := aerase t.pending_mint_editions registry_id }
      let t2 := { t1 with
        minted_editions := ainsert t1.minted_editions detail.id detail }
      let t3 :=
        if (afind t2.balances target_account_id).isSome then t2
        else { t2 with balances := ainsert t2.balances target_account_id [] }
      let t4 :=
        if (afind t3.year_mapping detail.year).isSome then t3
        else { t3 with year_mapping := ainsert t3.year_mapping detail.year [] }
      let tm := (afind t4.balances target_account_id).getD []
      let t5 := { t4 with
        balances := ainsert t4.balances target_account_id (ainsert tm detail.id detail.supply) }
      let ym := (afind t5.year_mapping detail.year).getD []
      let t6 := { t5 with
        year_mapping := ainsert t5.year_mapping detail.year (ym ++ [detail.id]) }
      (.ok (detail.minter, target_account_id, detail.id, detail.supply),
       { t6 with last_minted_token_id := some detail.id })

/-- `token.rs` line 133: `get_edition_details`. -/
def get_edition_details (t : Tracker) (id : Nat) : Except OperationError Detail :=
  match afind t.minted_editions id with
  | none => .error .TokenNotFound
  | some detail => .ok detail

/-- `token.rs` line 159: `get_total_supply`. -/
def get_total_supply (t : Tracker) : Nat :=
  t.minted_editions.foldl (fun acc p => acc + p.2.supply) 0

/-- `token.rs` line 248: `get_account_total_balance`. -/
def get_account_total_balance (t : Tracker) (account_id : Nat) : Nat :=
  match afind t.balances account_id with
  | none => 0
  | some account_balances => account_balances.foldl (fun acc p => acc + p.2) 0

/-- `token.rs` line 264: `get_account_balance_by_id`. -/
def get_account_balance_by_id (t : Tracker) (account_id token_id : Nat) :
    Except OperationError Nat :=
  if (afind t.minted_editions token_id).isSome then
    match afind t.balances account_id with
    | none => .ok 0
    | some token_balances =>
        match afind token_balances token_id with
        | none => .ok 0
        | some token_balance => .ok token_balance
  else .error .TokenNotFound

/-- `token.rs` line 282: `get_account_balance_by_year`. -/
def get_account_balance_by_year (t : Tracker) (account_id year : Nat) :
    Except OperationError Nat :=
  match afind t.year_mapping year with
  | none => .error .TokenNotFound
  | some year_tokens =>
      match afind t.balances account_id with
      | none => .ok 0
      | some token_balances =>
          if token_balances.isEmpty then .ok 0
          else .ok (year_tokens.foldl
            (fun acc token_id => acc + ((afind token_balances token_id).getD 0)) 0)

/-- The `if !self.balances.contains_key(&target) { insert empty map }`
prelude shared by all three transfer operations. -/
def ensureBalanceMap (t : Tracker) (account_id : Nat) : Tracker :=
  if (afind t.balances account_id).isSome then t
  else { t with balances := ainsert t.balances account_id [] }

/-- Crediting one `TokenEdition` to a balance map: `*entry += amount` when
present, `insert(id, amount)` otherwise. -/
def creditOne (tm : List (Nat × Nat)) (e : TokenEdition) : List (Nat × Nat) :=
  match afind tm e.id with
  | none => ainsert tm e.id e.amount
  | some bal => ainsert tm e.id (bal + e.amount)

/-- The credit loop over a list of transfer details. -/
def creditAll (tm : List (Nat × Nat)) (details : List TokenEdition) :
    List (Nat × Nat) :=
  details.foldl creditOne tm

/-- `token.rs` line 313: `transfer_token_all`. -/
def transfer_token_all (t : Tracker) (account_id target_account_id : Nat) :
    Except OperationError (List TokenEdition) × Tracker :=
  if get_account_total_balance t account_id = 0 then
    (.error .CannotTransferZeroCarbonUnit, t)
  else
    let t1 := ensureBalanceMap t target_account_id
    match afind t1.balances account_id with
    | none => (.error .InsufficientCarbonUnit, t1)
    | some context_account_balances =>
        let transfer_details :=
          context_account_balances.map (fun p => TokenEdition.mk p.1 p.2)
        let t2 := { t1 with balances := ainsert t1.balances account_id [] }
        let tm := (afind t2.balances target_account_id).getD []
        (.ok transfer_details,
         { t2 with balances :=
             ainsert t2.balances target_account_id (creditAll tm transfer_details) })

/-- `token.rs` line 357: `transfer_token_by_id`. -/
def transfer_token_by_id (t : Tracker)
    (account_id target_account_id token_id token_amount : Nat) :
    Except OperationError TokenEdition × Tracker :=
  if token_amount = 0 then (.error .CannotTransferZeroCarbonUnit, t)
  else
    let t1 := ensureBalanceMap t target_account_id
    if (afind t1.balances account_id).isSome then
      match get_account_balance_by_id t1 account_id token_id with
      | .error e => (.error e, t1)
      | .ok checked_balance =>
          if checked_balance < token_amount then (.error .InsufficientCarbonUnit, t1)
          else
            let context_account_balances := (afind t1.balances account_id).getD []
            match afind context_account_balances token_id with
            | none => (.error .InsufficientCarbonUnit, t1)
            | some context_account_balance =>
                if context_account_balance < token_amount then
                  (.error .InsufficientCarbonUnit, t1)
                else
                  let new_balance := context_account_balance - token_amount
                  let new_map :=
                    if new_balance = 0 then aerase context_account_balances token_id
                    else ainsert context_account_balances token_id new_balance
                  let t2 := { t1 with balances := ainsert t1.balances account_id new_map }
                  let target_account_balances :=
                    (afind t2.balances target_account_id).getD []
                  let new_target_map :=
                    creditOne target_account_balances
                      (TokenEdition.mk token_id token_amount)
                  let new_balances :=
                    ainsert t2.balances target_account_id new_target_map
                  (.ok (TokenEdition.mk token_id token_amount),
                   { t2 with balances := new_balances })
    else (.error .InsufficientCarbonUnit, t1)

/-- The year-walk loop of `transfer_token_by_year` (`token.rs` lines
448-475).  State: the source balance map, the remaining amount, the
pending-removal list and the accumulated transfer details.  The
`remaining - new_balance` in the first branch reproduces the source's
`remaining_amount_to_transfer -= *context_account_year_balance` which is
evaluated after the balance has been set to `0`. -/
def yearWalk : List Nat → List (Nat × Nat) → Nat → List Nat → List TokenEdition →
    List (Nat × Nat) × Nat × List Nat × List TokenEdition
  | [], m, remaining, removals, details => (m, remaining, removals, details)
  | token_id :: rest, m, remaining, removals, details =>
      if remaining = 0 then (m, remaining, removals, details)
      else
        match afind m token_id with
        | none => yearWalk rest m remaining removals details
        | some bal =>
            if bal < remaining then
              let new_balance := 0
              yearWalk rest (ainsert m token_id new_balance)
                (remaining - new_balance)
                (removals ++ [token_id]) (details ++ [TokenEdition.mk token_id bal])
            else
              let new_balance := bal - remaining
              yearWalk rest (ainsert m token_id new_balance) 0
                (if new_balance = 0 then removals ++ [token_id] else removals)
                (details ++ [TokenEdition.mk token_id remaining])

/-- `token.rs` line 413: `transfer_token_by_year`. -/
def transfer_token_by_year (t : Tracker)
    (account_id target_account_id token_year token_amount : Nat) :
    Except OperationError (List TokenEdition) × Tracker :=
  if token_amount = 0 then (.error .CannotTransferZeroCarbonUnit, t)
  else
    let t1 := ensureBalanceMap t target_account_id
    if (afind t1.balances account_id).isSome then
      match afind t1.year_mapping token_year with
      | none => (.error .TokenNotFound, t1)
      | some year_tokens =>
          match get_account_balance_by_year t1 account_id token_year with
          | .error e => (.error e, t1)
          | .ok year_balance =>
              if year_balance < token_amount then (.error .InsufficientCarbonUnit, t1)
              else
                let m := (afind t1.balances account_id).getD []
                let w := yearWalk year_tokens m token_amount [] []
                let m1 := w.2.2.1.foldl (fun mm token_id => aerase mm token_id) w.1
                let t2 := { t1 with balances := ainsert t1.balances account_id m1 }
                let tm := (afind t2.balances target_account_id).getD []
                let new_balances :=
                  ainsert t2.balances target_account_id (creditAll tm w.2.2.2)
                (.ok w.2.2.2, { t2 with balances := new_balances })
    else (.error .InsufficientCarbonUnit, t1)

/-- Bitwise complement of a `u64` value: the embedding of the `!` in
`!*context_account_balances.get(..).unwrap() < token_edition.amount`
(`token.rs` line 520). -/
def bitNot64 (n : Nat) : Nat := 18446744073709551615 - n % 18446744073709551616

/-- Pass 1 of `transfer_token_compounded` (`token.rs` lines 507-523):
read-only validation over the source balance map captured before pass 2;
returns the first error, if any. -/
def compoundedValidate (t : Tracker) (context_account_balances : List (Nat × Nat)) :
    List TokenEdition → Option OperationError
  | [] => none
  | e :: rest =>
      if (afind t.minted_editions e.id).isSome then
        if e.amount = 0 then some .CannotTransferZeroCarbonUnit
        else
          match afind context_account_balances e.id with
          | none => some .InsufficientCarbonUnit
          | some bal =>
              if bitNot64 bal < e.amount then some .InsufficientCarbonUnit
              else compoundedValidate t context_account_balances rest
      else some .TokenNotFound

/-- Pass 2 of `transfer_token_compounded` (`token.rs` lines 525-532):
sequential `transfer_token_by_id`, aborting on the first error with the
mutations of the earlier iterations retained. -/
def compoundedApply (t : Tracker) (account_id target_account_id : Nat) :
    List TokenEdition → Except OperationError Unit × Tracker
  | [] => (.ok (), t)
  | e :: rest =>
      match transfer_token_by_id t account_id target_account_id e.id e.amount with
      | (.error er, t1) => (.error er, t1)
      | (.ok _, t1) => compoundedApply t1 account_id target_account_id rest

/-- `token.rs` line 495: `transfer_token_compounded`. -/
def transfer_token_compounded (t : Tracker) (account_id target_account_id : Nat)
    (params : List TokenEdition) : Except OperationError Unit × Tracker :=
  match afind t.balances account_id with
  | none => (.error .InsufficientCarbonUnit, t)
  | some context_account_balances =>
      match compoundedValidate t context_account_balances params with
      | some e => (.error e, t)
      | none => compoundedApply t account_id target_account_id params

/-- `token.rs` line 537: `retire_token_id`. -/
def retire_token_id (t : Tracker) (account_id token_id retirement_amount : Nat) :
    Except OperationError Unit × Tracker :=
  match transfer_token_by_id t account_id get_blackhole_address token_id
      retirement_amount with
  | (.error e, t1) => (.error e, t1)
  | (.ok _, t1) =>
      let edition_detail := (afind t1.minted_editions token_id).get!
      if edition_detail.supply < retirement_amount then
        (.error .BlockchainCorrupted, t1)
      else
        let new_detail :=
          { edition_detail with
              supply := edition_detail.supply - retirement_amount
              retired := edition_detail.retired + retirement_amount }
        let new_minted := ainsert t1.minted_editions token_id new_detail
        (.ok (), { t1 with minted_editions := new_minted })

/-- `retirement.rs`: the `Info` acknowledgment. -/
structure RetirementInfo where
  id : Nat
  amount : Nat
deriving DecidableEq, Repr

/-- `retirement.rs`: the `Report` record. -/
structure Report where
  id : Nat
  block_number : Nat
  timestamp : Nat
  beneficiary : Nat
  token_id : Nat
  amount : Nat
  registry_id : String
deriving DecidableEq, Repr

/-- `retirement.rs`: the `Book` storage struct (the RetirementBook state). -/
structure Book where
  next_retirement_id : Nat
  last_retirement_id : Option Nat
  reports : List (Nat × Report)
  account_mapping : List (Nat × List Nat)
deriving DecidableEq, Repr

/-- `retirement.rs`: `insert_new_report`. -/
def insert_new_report (bk : Book) (account : Nat)
    (retirement_detail : TokenBalanceDetail) (bn ts : Nat) : RetirementInfo × Book :=
  let next_id := bk.next_retirement_id
  let report : Report :=
    { id := next_id
      block_number := bn
      timestamp := ts
      beneficiary := account
      token_id := retirement_detail.detail.id
      amount := retirement_detail.balance
      registry_id := retirement_detail.detail.registry_id }
  let bk1 := { bk with
    next_retirement_id := next_id + 1
    last_retirement_id := some next_id
    reports := ainsert bk.reports next_id report }
  let bk2 :=
    if (afind bk1.account_mapping account).isSome then bk1
    else { bk1 with account_mapping := ainsert bk1.account_mapping account [] }
  let indices := (afind bk2.account_mapping account).getD []
  let new_mapping := ainsert bk2.account_mapping account (indices ++ [next_id])
  ({ id := next_id, amount := retirement_detail.balance },
   { bk2 with account_mapping := new_mapping })

/-- `lib.rs` line 456: `own_token_retire_by_id` — the contract message that
retires and then records the retirement report. -/
def own_token_retire_by_id (t : Tracker) (bk : Book)
    (caller token_id retirement_amount bn ts : Nat) :
    Except OperationError Nat × Tracker × Book :=
  match retire_token_id t caller token_id retirement_amount with
  | (.error e, t1) => (.error e, t1, bk)
  | (.ok _, t1) =>
      match get_edition_details t1 token_id with
      | .error e => (.error e, t1, bk)
      | .ok token_detail =>
          let snapshot : TokenBalanceDetail :=
            { balance := retirement_amount, detail := token_detail }
          let r := insert_new_report bk caller snapshot bn ts
          (.ok r.1.id, t1, r.2)

/-- The operations of the MintLedger, as invocable by the dispatch layer:
the alphabet of the reachable-state relation. -/
inductive Op where
  | insertPending (minter : Nat) (params : MintRequestParams) (bn ts : Nat)
  | deny (registry_id : String)
  | approve (registry_id : String)
  | transferAll (account_id target_account_id : Nat)
  | transferById (account_id target_account_id token_id token_amount : Nat)
  | transferByYear (account_id target_account_id token_year token_amount : Nat)
  | transferCompounded (account_id target_account_id : Nat) (params : List TokenEdition)
  | retire (account_id token_id retirement_amount : Nat)
deriving DecidableEq, Repr

/-- The state reached after one operation (errors leave whatever partial
state the operation produced, exactly as `&mut self` does). -/
def applyOp (t : Tracker) : Op → Tracker
  | .insertPending minter params bn ts => (insert_pending_mint t minter params bn ts).2
  | .deny registry_id => (deny_pending_mint t registry_id).2
  | .approve registry_id => (approve_pending_mint t registry_id).2
  | .transferAll a b => (transfer_token_all t a b).2
  | .transferById a b token_id amt => (transfer_token_by_id t a b token_id amt).2
  | .transferByYear a b year amt => (transfer_token_by_year t a b year amt).2
  | .transferCompounded a b params => (transfer_token_compounded t a b params).2
  | .retire a token_id amt => (retire_token_id t a token_id amt).2

/-- Running a sequence of operations. -/
def run (t : Tracker) (ops : List Op) : Tracker := ops.foldl applyOp t

instance {e a : Type} [DecidableEq e] [DecidableEq a] : DecidableEq (Except e a) :=
  fun x y =>
    match x, y with
    | .ok v, .ok w =>
        if h : v = w then isTrue (by rw [h])
        else isFalse (fun hh => h (by cases hh; rfl))
    | .ok _, .error _ => isFalse (fun hh => Except.noConfusion hh)
    | .error _, .ok _ => isFalse (fun hh => Except.noConfusion hh)
    | .error v, .error w =>
        if h : v = w then isTrue (by rw [h])
        else isFalse (fun hh => h (by cases hh; rfl))

/- ===== The structural invariant of reachable ledger states ===== -/

/-- Well-formedness facts that hold in every state reachable from
`initTracker`: allocated edition ids are below the counter, pending
requests carry `retired = 0`, pending ids are fresh and pairwise distinct,
and the year index lists minted ids without duplicates. -/
structure TrackerInv (t : Tracker) : Prop where
  minted_lt : ∀ p ∈ t.minted_editions, p.1 < t.next_token_id
  pending_lt : ∀ p ∈ t.pending_mint_editions, p.2.1.id < t.next_token_id
  pending_retired : ∀ p ∈ t.pending_mint_editions, p.2.1.retired = 0
  pending_not_minted :
    ∀ p ∈ t.pending_mint_editions, afind t.minted_editions p.2.1.id = none
  pending_keys_nodup : (t.pending_mint_editions.map Prod.fst).Nodup
  pending_ids_nodup : (t.pending_mint_editions.map (fun p => p.2.1.id)).Nodup
  year_minted :
    ∀ p ∈ t.year_mapping, ∀ id ∈ p.2, (afind t.minted_editions id).isSome
  year_nodup : ∀ p ∈ t.year_mapping, p.2.Nodup

/-- A single balance map is well formed: positive amounts, duplicate-free
keys. -/
def mapGood (sm : List (Nat × Nat)) : Prop :=
  (∀ q ∈ sm, 0 < q.2) ∧ (sm.map Prod.fst).Nodup

/-- Every stored balance map is well formed. -/
def balGood (bs : List (Nat × List (Nat × Nat))) : Prop := ∀ p ∈ bs, mapGood p.2

/-- Balance-positivity state invariant: every stored balance entry is
positive (with duplicate-free keys), and every pending request carries a
positive verified amount. -/
structure PosInv (t : Tracker) : Prop where
  bal : balGood t.balances
  pending_pos : ∀ p ∈ t.pending_mint_editions, 0 < p.2.1.supply

/-- An operation "mints positively" when, if it is a mint request, its
verified amount is nonzero. -/
def Op.positiveMintB : Op → Bool
  | .insertPending _ params _ _ => decide (0 < params.verified_carbon_unit)
  | _ => true

/-- The stored balance of an account for an edition (0 when absent),
read directly off the balance maps. -/
def storedBalance (t : Tracker) (account_id tid : Nat) : Nat :=
  (afind ((afind t.balances account_id).getD []) tid).getD 0

/- ===== Concrete ledger states used by the claims ===== -/

/-- Edition 0: 5 units, year 2000. -/
def walkDetail0 : Detail :=
  { id := 0, block_number := 0, timestamp := 0, minter := 9, supply := 5,
    retired := 0, year := 2000, registry_id := "REG-A" }

/-- Edition 1: 10 units, year 2000. -/
def walkDetail1 : Detail :=
  { id := 1, block_number := 0, timestamp := 0, minter := 9, supply := 10,
    retired := 0, year := 2000, registry_id := "REG-B" }

/-- Ledger where account 1 holds 5 units of edition 0 and 10 of edition 1,
both issued in year 2000. -/
def walkState : Tracker :=
  { next_token_id := 2
    last_minted_token_id := some 1
    minted_editions := [(0, walkDetail0), (1, walkDetail1)]
    pending_mint_editions := []
    balances := [(1, [(0, 5), (1, 10)])]
    year_mapping := [(2000, [0, 1])] }

/-- Ledger with one 5-unit edition held entirely by account 1. -/
def bundleState : Tracker :=
  { next_token_id := 1
    last_minted_token_id := some 0
    minted_editions := [(0, walkDetail0)]
    pending_mint_editions := []
    balances := [(1, [(0, 5)])]
    year_mapping := [(2000, [0])] }

/-- Ledger where account 1 holds two editions and account 2 already holds
some of edition 0. -/
def allState : Tracker :=
  { next_token_id := 2
    last_minted_token_id := some 1
    minted_editions := [(0, walkDetail0), (1, walkDetail1)]
    pending_mint_editions := []
    balances := [(1, [(0, 5), (1, 10)]), (2, [(0, 7)])]
    year_mapping := [(2000, [0, 1])] }

/-- State reached from the empty ledger after one 7-unit mint request. -/
def requestState : Tracker :=
  run initTracker [Op.insertPending 1 ⟨"R", 7, 2000, 2⟩ 0 0]

/-- The empty retirement book. -/
def initBook : Book :=
  { next_retirement_id := 0
    last_retirement_id := none
    reports := []
    account_mapping := [] }

/- ===== Association-list lemmas ===== -/

theorem afind_ainsert_self {κ α : Type} [DecidableEq κ] (m : List (κ × α)) (k : κ) (v : α) :
    afind (ainsert m k v) k = some v := by
  induction m with
  | nil => simp [ainsert, afind]
  | cons p rest ih =>
      obtain ⟨k0, v0⟩ := p
      by_cases h : k0 = k
      · subst h; simp [ainsert, afind]
      · simp [ainsert, afind, h, ih]

theorem afind_ainsert_ne {κ α : Type} [DecidableEq κ] (m : List (κ × α)) (k : κ) (v : α)
    (q : κ) (h : q ≠ k) : afind (ainsert m k v) q = afind m q := by
  induction m with
  | nil =>
      have : ¬ k = q := fun hh => h hh.symm
      simp [ainsert, afind, this]
  | cons p rest ih =>
      obtain ⟨k0, v0⟩ := p
      by_cases h0 : k0 = k
      · subst h0
        have : ¬ k0 = q := fun hh => h hh.symm
        simp [ainsert, afind, this]
      · by_cases h1 : k0 = q
        · subst h1; simp [ainsert, afind, h0]
        · simp [ainsert, afind, h0, h1, ih]

theorem afind_aerase_ne {κ α : Type} [DecidableEq κ] (m : List (κ × α)) (k q : κ)
    (h : q ≠ k) : afind (aerase m k) q = afind m q := by
  induction m with
  | nil => simp [aerase]
  | cons p rest ih =>
      obtain ⟨k0, v0⟩ := p
      by_cases h0 : k0 = k
      · subst h0
        have : ¬ k0 = q := fun hh => h hh.symm
        simp [aerase, afind, this]
      · by_cases h1 : k0 = q
        · subst h1; simp [aerase, afind, h0]
        · simp [aerase, afind, h0, h1, ih]

theorem aerase_sublist {κ α : Type} [DecidableEq κ] (m : List (κ × α)) (k : κ) :
    (aerase m k).Sublist m := by
  induction m with
  | nil => simp [aerase]
  | cons p rest ih =>
      obtain ⟨k0, v0⟩ := p
      by_cases h0 : k0 = k
      · simp [aerase, h0]
      · simpa [aerase, h0] using ih.cons₂ (k0, v0)

theorem mem_of_mem_aerase {κ α : Type} [DecidableEq κ] {m : List (κ × α)} {k : κ}
    {p : κ × α} (h : p ∈ aerase m k) : p ∈ m :=
  (aerase_sublist m k).subset h

theorem mem_ainsert {κ α : Type} [DecidableEq κ] {m : List (κ × α)} {k : κ} {v : α}
    {p : κ × α} (h : p ∈ ainsert m k v) : p = (k, v) ∨ p ∈ m := by
  induction m with
  | nil => simpa [ainsert] using h
  | cons q rest ih =>
      obtain ⟨k0, v0⟩ := q
      by_cases h0 : k0 = k
      · subst h0
        rcases (by simpa [ainsert] using h : p = (k0, v) ∨ p ∈ rest) with h1 | h1
        · exact Or.inl h1
        · exact Or.inr (List.mem_cons_of_mem _ h1)
      · rcases (by simpa [ainsert, h0] using h : p = (k0, v0) ∨ p ∈ ainsert rest k v)
          with h1 | h1
        · exact Or.inr (by simp [h1])
        · rcases ih h1 with h2 | h2
          · exact Or.inl h2
          · exact Or.inr (List.mem_cons_of_mem _ h2)

theorem afind_mem {κ α : Type} [DecidableEq κ] {m : List (κ × α)} {k : κ} {v : α}
    (h : afind m k = some v) : (k, v) ∈ m := by
  induction m with
  | nil => simp [afind] at h
  | cons p rest ih =>
      obtain ⟨k0, v0⟩ := p
      by_cases h0 : k0 = k
      · subst h0
        have h1 : v0 = v := by simpa [afind] using h
        subst h1
        exact List.mem_cons_self _ _
      · simp only [afind, if_neg h0] at h
        exact List.mem_cons_of_mem _ (ih h)

theorem afind_eq_none {κ α : Type} [DecidableEq κ] {m : List (κ × α)} {k : κ}
    (h : afind m k = none) : ∀ p ∈ m, p.1 ≠ k := by
  induction m with
  | nil => simp
  | cons p rest ih =>
      obtain ⟨k0, v0⟩ := p
      by_cases h0 : k0 = k
      · subst h0; simp [afind] at h
      · simp only [afind, if_neg h0] at h
        intro q hq
        rcases List.mem_cons.mp hq with h1 | h1
        · subst h1; exact h0
        · exact ih h q h1

theorem afind_eq_none_of_forall {κ α : Type} [DecidableEq κ] {m : List (κ × α)} {k : κ}
    (h : ∀ p ∈ m, p.1 ≠ k) : afind m k = none := by
  induction m with
  | nil => simp [afind]
  | cons p rest ih =>
      obtain ⟨k0, v0⟩ := p
      have hk0 : k0 ≠ k := h (k0, v0) (List.mem_cons_self _ _)
      simp only [afind, if_neg hk0]
      exact ih (fun q hq => h q (List.mem_cons_of_mem _ hq))

theorem ainsert_of_afind_none {κ α : Type} [DecidableEq κ] {m : List (κ × α)} {k : κ}
    (v : α) (h : afind m k = none) : ainsert m k v = m ++ [(k, v)] := by
  induction m with
  | nil => simp [ainsert]
  | cons p rest ih =>
      obtain ⟨k0, v0⟩ := p
      by_cases h0 : k0 = k
      · subst h0; simp [afind] at h
      · simp only [afind, if_neg h0] at h
        simp [ainsert, h0, ih h]

theorem nodupkeys_ainsert {κ α : Type} [DecidableEq κ] {m : List (κ × α)} (k : κ) (v : α)
    (h : (m.map Prod.fst).Nodup) : ((ainsert m k v).map Prod.fst).Nodup := by
  induction m with
  | nil => simp [ainsert]
  | cons p rest ih =>
      obtain ⟨k0, v0⟩ := p
      simp only [List.map_cons, List.nodup_cons] at h
      by_cases h0 : k0 = k
      · subst h0
        simpa [ainsert] using h
      · have h2 := ih h.2
        simp only [ainsert, if_neg h0, List.map_cons, List.nodup_cons]
        refine ⟨?_, h2⟩
        intro hmem
        rcases List.mem_map.mp hmem with ⟨q, hq, hq1⟩
        rcases mem_ainsert hq with h3 | h3
        · subst h3
          exact h0 (by simpa using hq1.symm)
        · exact h.1 (List.mem_map.mpr ⟨q, h3, hq1⟩)

theorem nodupkeys_aerase {κ α : Type} [DecidableEq κ] {m : List (κ × α)} (k : κ)
    (h : (m.map Prod.fst).Nodup) : ((aerase m k).map Prod.fst).Nodup :=
  ((aerase_sublist m k).map Prod.fst).nodup h

theorem mem_aerase_of_nodupkeys {κ α : Type} [DecidableEq κ] {m : List (κ × α)} {k : κ}
    {p : κ × α} (hnd : (m.map Prod.fst).Nodup) (h : p ∈ aerase m k) :
    p ∈ m ∧ p.1 ≠ k := by
  induction m with
  | nil => simp [aerase] at h
  | cons q rest ih =>
      obtain ⟨k0, v0⟩ := q
      simp only [List.map_cons, List.nodup_cons] at hnd
      by_cases h0 : k0 = k
      · subst h0
        simp only [aerase, if_pos rfl] at h
        refine ⟨List.mem_cons_of_mem _ h, ?_⟩
        intro hk
        exact hnd.1 (List.mem_map.mpr ⟨p, h, hk⟩)
      · simp only [aerase, if_neg h0] at h
        rcases List.mem_cons.mp h with h1 | h1
        · subst h1; exact ⟨List.mem_cons_self _ _, h0⟩
        · rcases ih hnd.2 h1 with ⟨h2, h3⟩
          exact ⟨List.mem_cons_of_mem _ h2, h3⟩

/- ===== Credit-loop lemmas ===== -/

theorem afind_creditOne (tm : List (Nat × Nat)) (e : TokenEdition) (q : Nat) :
    afind (creditOne tm e) q =
      if q = e.id then some (((afind tm e.id).getD 0) + e.amount) else afind tm q := by
  unfold creditOne
  cases h : afind tm e.id with
  | none =>
      by_cases hq : q = e.id
      · subst hq; simp [h, afind_ainsert_self]
      · simp [hq, afind_ainsert_ne _ _ _ _ hq]
  | some bal =>
      by_cases hq : q = e.id
      · subst hq; simp [h, afind_ainsert_self]
      · simp [hq, afind_ainsert_ne _ _ _ _ hq]

theorem creditAll_cons (tm : List (Nat × Nat)) (e : TokenEdition) (ds : List TokenEdition) :
    creditAll tm (e :: ds) = creditAll (creditOne tm e) ds := rfl

theorem afind_creditAll_not_mem (tm : List (Nat × Nat)) (ds : List TokenEdition) (q : Nat)
    (h : ∀ e ∈ ds, e.id ≠ q) : afind (creditAll tm ds) q = afind tm q := by
  induction ds generalizing tm with
  | nil => rfl
  | cons e rest ih =>
      rw [creditAll_cons, ih _ (fun x hx => h x (List.mem_cons_of_mem _ hx))]
      rw [afind_creditOne]
      have : q ≠ e.id := fun hq => h e (List.mem_cons_self _ _) hq.symm
      simp [this]

theorem afind_creditAll_mem (tm : List (Nat × Nat)) {ds : List TokenEdition}
    (hnd : (ds.map TokenEdition.id).Nodup) {e : TokenEdition} (he : e ∈ ds) :
    afind (creditAll tm ds) e.id = some (((afind tm e.id).getD 0) + e.amount) := by
  induction ds generalizing tm with
  | nil => simp at he
  | cons e0 rest ih =>
      simp only [List.map_cons, List.nodup_cons] at hnd
      rcases List.mem_cons.mp he with h1 | h1
      · subst h1
        rw [creditAll_cons]
        have hnot : ∀ x ∈ rest, x.id ≠ e.id := by
          intro x hx hxe
          exact hnd.1 (List.mem_map.mpr ⟨x, hx, hxe⟩)
        rw [afind_creditAll_not_mem _ _ _ hnot, afind_creditOne]
        simp
      · rw [creditAll_cons, ih (creditOne tm e0) hnd.2 h1]
        have hne : e.id ≠ e0.id := by
          intro hq
          exact hnd.1 (List.mem_map.mpr ⟨e, h1, hq⟩)
        rw [afind_creditOne]
        simp [hne]

theorem creditOne_pos {tm : List (Nat × Nat)} {e : TokenEdition}
    (htm : ∀ p ∈ tm, 0 < p.2) (he : 0 < e.amount) : ∀ p ∈ creditOne tm e, 0 < p.2 := by
  intro p hp
  unfold creditOne at hp
  cases h : afind tm e.id with
  | none =>
      rw [h] at hp
      rcases mem_ainsert hp with h1 | h1
      · subst h1; exact he
      · exact htm _ h1
  | some bal =>
      rw [h] at hp
      rcases mem_ainsert hp with h1 | h1
      · subst h1; exact Nat.lt_of_lt_of_le he (Nat.le_add_left _ _)
      · exact htm _ h1

theorem creditAll_pos {tm : List (Nat × Nat)} {ds : List TokenEdition}
    (htm : ∀ p ∈ tm, 0 < p.2) (hds : ∀ e ∈ ds, 0 < e.amount) :
    ∀ p ∈ creditAll tm ds, 0 < p.2 := by
  induction ds generalizing tm with
  | nil => exact htm
  | cons e rest ih =>
      rw [creditAll_cons]
      exact ih (creditOne_pos htm (hds e (List.mem_cons_self _ _)))
        (fun x hx => hds x (List.mem_cons_of_mem _ hx))

theorem nodupkeys_creditOne {tm : List (Nat × Nat)} (e : TokenEdition)
    (h : (tm.map Prod.fst).Nodup) : ((creditOne tm e).map Prod.fst).Nodup := by
  unfold creditOne
  cases afind tm e.id <;> exact nodupkeys_ainsert _ _ h

theorem nodupkeys_creditAll {tm : List (Nat × Nat)} (ds : List TokenEdition)
    (h : (tm.map Prod.fst).Nodup) : ((creditAll tm ds).map Prod.fst).Nodup := by
  induction ds generalizing tm with
  | nil => exact h
  | cons e rest ih => exact ih (nodupkeys_creditOne e h)

/- ===== Projection (skeleton) lemmas: which fields each operation touches ===== -/

theorem ensure_minted (t : Tracker) (b : Nat) :
    (ensureBalanceMap t b).minted_editions = t.minted_editions := by
  unfold ensureBalanceMap; split <;> rfl

theorem ensure_pending (t : Tracker) (b : Nat) :
    (ensureBalanceMap t b).pending_mint_editions = t.pending_mint_editions := by
  unfold ensureBalanceMap; split <;> rfl

theorem ensure_year (t : Tracker) (b : Nat) :
    (ensureBalanceMap t b).year_mapping = t.year_mapping := by
  unfold ensureBalanceMap; split <;> rfl

theorem ensure_next (t : Tracker) (b : Nat) :
    (ensureBalanceMap t b).next_token_id = t.next_token_id := by
  unfold ensureBalanceMap; split <;> rfl

theorem ensure_last (t : Tracker) (b : Nat) :
    (ensureBalanceMap t b).last_minted_token_id = t.last_minted_token_id := by
  unfold ensureBalanceMap; split <;> rfl

theorem ensure_find_self (t : Tracker) (b : Nat) :
    afind (ensureBalanceMap t b).balances b = some ((afind t.balances b).getD []) := by
  unfold ensureBalanceMap
  cases h : afind t.balances b with
  | none => simp [h, afind_ainsert_self]
  | some m => simp [h]

theorem ensure_find_ne (t : Tracker) (b c : Nat) (h : c ≠ b) :
    afind (ensureBalanceMap t b).balances c = afind t.balances c := by
  unfold ensureBalanceMap
  split
  · rfl
  · exact afind_ainsert_ne _ _ _ _ h

theorem get_total_supply_congr {t t' : Tracker}
    (h : t'.minted_editions = t.minted_editions) :
    get_total_supply t' = get_total_supply t := by
  unfold get_total_supply; rw [h]

theorem byId_skel (t : Tracker) (a b tid amt : Nat) :
    (transfer_token_by_id t a b tid amt).2.minted_editions = t.minted_editions ∧
    (transfer_token_by_id t a b tid amt).2.pending_mint_editions = t.pending_mint_editions ∧
    (transfer_token_by_id t a b tid amt).2.year_mapping = t.year_mapping ∧
    (transfer_token_by_id t a b tid amt).2.next_token_id = t.next_token_id ∧
    (transfer_token_by_id t a b tid amt).2.last_minted_token_id = t.last_minted_token_id := by
  simp only [transfer_token_by_id]
  refine ⟨?_, ?_, ?_, ?_, ?_⟩ <;> (repeat' split) <;>
    simp [ensure_minted, ensure_pending, ensure_year, ensure_next, ensure_last]

theorem transferAll_skel (t : Tracker) (a b : Nat) :
    (transfer_token_all t a b).2.minted_editions = t.minted_editions ∧
    (transfer_token_all t a b).2.pending_mint_editions = t.pending_mint_editions ∧
    (transfer_token_all t a b).2.year_mapping = t.year_mapping ∧
    (transfer_token_all t a b).2.next_token_id = t.next_token_id ∧
    (transfer_token_all t a b).2.last_minted_token_id = t.last_minted_token_id := by
  simp only [transfer_token_all]
  refine ⟨?_, ?_, ?_, ?_, ?_⟩ <;> (repeat' split) <;>
    simp [ensure_minted, ensure_pending, ensure_year, ensure_next, ensure_last]

theorem byYear_skel (t : Tracker) (a b y amt : Nat) :
    (transfer_token_by_year t a b y amt).2.minted_editions = t.minted_editions ∧
    (transfer_token_by_year t a b y amt).2.pending_mint_editions = t.pending_mint_editions ∧
    (transfer_token_by_year t a b y amt).2.year_mapping = t.year_mapping ∧
    (transfer_token_by_year t a b y amt).2.next_token_id = t.next_token_id ∧
    (transfer_token_by_year t a b y amt).2.last_minted_token_id = t.last_minted_token_id := by
  simp only [transfer_token_by_year]
  refine ⟨?_, ?_, ?_, ?_, ?_⟩ <;> (repeat' split) <;>
    simp [ensure_minted, ensure_pending, ensure_year, ensure_next, ensure_last]

theorem compoundedApply_skel (a b : Nat) (ps : List TokenEdition) : ∀ t : Tracker,
    (compoundedApply t a b ps).2.minted_editions = t.minted_editions ∧
    (compoundedApply t a b ps).2.pending_mint_editions = t.pending_mint_editions ∧
    (compoundedApply t a b ps).2.year_mapping = t.year_mapping ∧
    (compoundedApply t a b ps).2.next_token_id = t.next_token_id ∧
    (compoundedApply t a b ps).2.last_minted_token_id = t.last_minted_token_id := by
  induction ps with
  | nil => intro t; exact ⟨rfl, rfl, rfl, rfl, rfl⟩
  | cons e rest ih =>
      intro t
      have hsk := byId_skel t a b e.id e.amount
      unfold compoundedApply
      cases hr : transfer_token_by_id t a b e.id e.amount with
      | mk r t1 =>
          rw [hr] at hsk
          cases r with
          | error er => simpa using hsk
          | ok v =>
              have h2 := ih t1
              simp only []
              exact ⟨h2.1.trans hsk.1, h2.2.1.trans hsk.2.1, h2.2.2.1.trans hsk.2.2.1,
                h2.2.2.2.1.trans hsk.2.2.2.1, h2.2.2.2.2.trans hsk.2.2.2.2⟩

theorem compounded_skel (t : Tracker) (a b : Nat) (ps : List TokenEdition) :
    (transfer_token_compounded t a b ps).2.minted_editions = t.minted_editions ∧
    (transfer_token_compounded t a b ps).2.pending_mint_editions = t.pending_mint_editions ∧
    (transfer_token_compounded t a b ps).2.year_mapping = t.year_mapping ∧
    (transfer_token_compounded t a b ps).2.next_token_id = t.next_token_id ∧
    (transfer_token_compounded t a b ps).2.last_minted_token_id = t.last_minted_token_id := by
  unfold transfer_token_compounded
  cases hm : afind t.balances a with
  | none => exact ⟨rfl, rfl, rfl, rfl, rfl⟩
  | some m =>
      cases hv : compoundedValidate t m ps with
      | some e => simp [hv]
      | none =>
          simp only [hv]
          exact compoundedApply_skel a b ps t

theorem retire_skel (t : Tracker) (a tid amt : Nat) :
    (retire_token_id t a tid amt).2.pending_mint_editions = t.pending_mint_editions ∧
    (retire_token_id t a tid amt).2.year_mapping = t.year_mapping ∧
    (retire_token_id t a tid amt).2.next_token_id = t.next_token_id ∧
    (retire_token_id t a tid amt).2.last_minted_token_id = t.last_minted_token_id := by
  unfold retire_token_id
  have hsk := byId_skel t a get_blackhole_address tid amt
  cases hr : transfer_token_by_id t a get_blackhole_address tid amt with
  | mk r t1 =>
      rw [hr] at hsk
      cases r with
      | error er => exact ⟨hsk.2.1, hsk.2.2.1, hsk.2.2.2.1, hsk.2.2.2.2⟩
      | ok v =>
          simp only []
          split
          · exact ⟨hsk.2.1, hsk.2.2.1, hsk.2.2.2.1, hsk.2.2.2.2⟩
          · exact ⟨hsk.2.1, hsk.2.2.1, hsk.2.2.2.1, hsk.2.2.2.2⟩

theorem insertPending_skel (t : Tracker) (minter : Nat) (params : MintRequestParams)
    (bn ts : Nat) :
    (insert_pending_mint t minter params bn ts).2.minted_editions = t.minted_editions ∧
    (insert_pending_mint t minter params bn ts).2.balances = t.balances ∧
    (insert_pending_mint t minter params bn ts).2.year_mapping = t.year_mapping ∧
    (insert_pending_mint t minter params bn ts).2.last_minted_token_id =
      t.last_minted_token_id := by
  unfold insert_pending_mint
  split
  · exact ⟨rfl, rfl, rfl, rfl⟩
  · exact ⟨rfl, rfl, rfl, rfl⟩

theorem insertPending_next (t : Tracker) (minter : Nat) (params : MintRequestParams)
    (bn ts : Nat) :
    (insert_pending_mint t minter params bn ts).2.next_token_id = t.next_token_id ∨
    (insert_pending_mint t minter params bn ts).2.next_token_id = t.next_token_id + 1 := by
  unfold insert_pending_mint
  split
  · exact Or.inl rfl
  · exact Or.inr rfl

theorem deny_skel (t : Tracker) (rid : String) :
    (deny_pending_mint t rid).2.minted_editions = t.minted_editions ∧
    (deny_pending_mint t rid).2.balances = t.balances ∧
    (deny_pending_mint t rid).2.year_mapping = t.year_mapping ∧
    (deny_pending_mint t rid).2.next_token_id = t.next_token_id ∧
    (deny_pending_mint t rid).2.last_minted_token_id = t.last_minted_token_id := by
  unfold deny_pending_mint
  cases afind t.pending_mint_editions rid with
  | none => exact ⟨rfl, rfl, rfl, rfl, rfl⟩
  | some p => exact ⟨rfl, rfl, rfl, rfl, rfl⟩

theorem approve_next (t : Tracker) (rid : String) :
    (approve_pending_mint t rid).2.next_token_id = t.next_token_id := by
  simp only [approve_pending_mint]
  repeat' split
  all_goals rfl

theorem applyOp_next_mono (t : Tracker) (op : Op) :
    t.next_token_id ≤ (applyOp t op).next_token_id := by
  cases op with
  | insertPending minter params bn ts =>
      rcases insertPending_next t minter params bn ts with h | h <;>
        simp [applyOp, h]
  | deny rid => simp [applyOp, (deny_skel t rid).2.2.2.1]
  | approve rid => simp [applyOp, approve_next t rid]
  | transferAll a b => simp [applyOp, (transferAll_skel t a b).2.2.2.1]
  | transferById a b tid amt => simp [applyOp, (byId_skel t a b tid amt).2.2.2.1]
  | transferByYear a b y amt => simp [applyOp, (byYear_skel t a b y amt).2.2.2.1]
  | transferCompounded a b ps => simp [applyOp, (compounded_skel t a b ps).2.2.2.1]
  | retire a tid amt => simp [applyOp, (retire_skel t a tid amt).2.2.1]

theorem run_next_mono (t : Tracker) (ops : List Op) :
    t.next_token_id ≤ (run t ops).next_token_id := by
  induction ops generalizing t with
  | nil => exact Nat.le_refl _
  | cons op rest ih =>
      exact Nat.le_trans (applyOp_next_mono t op) (ih (applyOp t op))

/- ===== More association-list lemmas ===== -/

theorem ainsert_ainsert_same {κ α : Type} [DecidableEq κ] (m : List (κ × α)) (k : κ)
    (v1 v2 : α) : ainsert (ainsert m k v1) k v2 = ainsert m k v2 := by
  induction m with
  | nil => simp [ainsert]
  | cons p rest ih =>
      obtain ⟨k0, v0⟩ := p
      by_cases h0 : k0 = k
      · subst h0; simp [ainsert]
      · simp [ainsert, h0, ih]

theorem afind_isSome_ainsert_mono {κ α : Type} [DecidableEq κ] {m : List (κ × α)}
    {q : κ} (k : κ) (v : α) (h : (afind m q).isSome) :
    (afind (ainsert m k v) q).isSome := by
  by_cases hq : q = k
  · subst hq; simp [afind_ainsert_self]
  · rwa [afind_ainsert_ne _ _ _ _ hq]

theorem inv_of_fields {t t' : Tracker} (hI : TrackerInv t)
    (hm : t'.minted_editions = t.minted_editions)
    (hp : t'.pending_mint_editions = t.pending_mint_editions)
    (hy : t'.year_mapping = t.year_mapping)
    (hn : t'.next_token_id = t.next_token_id) : TrackerInv t' := by
  refine ⟨?_, ?_, ?_, ?_, ?_, ?_, ?_, ?_⟩
  · rw [hm, hn]; exact hI.minted_lt
  · rw [hp, hn]; exact hI.pending_lt
  · rw [hp]; exact hI.pending_retired
  · rw [hp, hm]; exact hI.pending_not_minted
  · rw [hp]; exact hI.pending_keys_nodup
  · rw [hp]; exact hI.pending_ids_nodup
  · rw [hy, hm]; exact hI.year_minted
  · rw [hy]; exact hI.year_nodup

theorem inv_init : TrackerInv initTracker := by
  constructor <;> simp [initTracker]

theorem inv_insertPending (t : Tracker) (minter : Nat) (params : MintRequestParams)
    (bn ts : Nat) (hI : TrackerInv t) : TrackerInv (insert_pending_mint t minter params bn ts).2 := by
  unfold insert_pending_mint
  split
  · exact hI
  · rename_i hn
    have hnone : afind t.pending_mint_editions params.registry_id = none := by
      cases h : afind t.pending_mint_editions params.registry_id with
      | none => rfl
      | some p => rw [h] at hn; simp at hn
    simp only [take_next_token_id]
    rw [ainsert_of_afind_none _ hnone]
    refine ⟨?_, ?_, ?_, ?_, ?_, ?_, ?_, ?_⟩
    · intro p hp
      exact Nat.lt_succ_of_lt (hI.minted_lt p hp)
    · intro p hp
      rcases List.mem_append.mp hp with h1 | h1
      · exact Nat.lt_succ_of_lt (hI.pending_lt p h1)
      · simp only [List.mem_singleton] at h1
        subst h1
        exact Nat.lt_succ_self _
    · intro p hp
      rcases List.mem_append.mp hp with h1 | h1
      · exact hI.pending_retired p h1
      · simp only [List.mem_singleton] at h1
        subst h1
        rfl
    · intro p hp
      rcases List.mem_append.mp hp with h1 | h1
      · exact hI.pending_not_minted p h1
      · simp only [List.mem_singleton] at h1
        subst h1
        exact afind_eq_none_of_forall
          (fun q hq => Nat.ne_of_lt (hI.minted_lt q hq))
    · rw [List.map_append]
      rw [List.nodup_append]
      refine ⟨hI.pending_keys_nodup, List.nodup_singleton _, ?_⟩
      intro x hx hx2
      simp only [List.map_cons, List.map_nil, List.mem_singleton] at hx2
      subst hx2
      rcases List.mem_map.mp hx with ⟨q, hq, hq2⟩
      exact afind_eq_none hnone q hq hq2
    · rw [List.map_append]
      rw [List.nodup_append]
      refine ⟨hI.pending_ids_nodup, List.nodup_singleton _, ?_⟩
      intro x hx hx2
      simp only [List.map_cons, List.map_nil, List.mem_singleton] at hx2
      subst hx2
      rcases List.mem_map.mp hx with ⟨q, hq, hq2⟩
      exact Nat.ne_of_lt (hI.pending_lt q hq) hq2
    · exact hI.year_minted
    · exact hI.year_nodup

theorem inv_deny (t : Tracker) (rid : String) (hI : TrackerInv t) :
    TrackerInv (deny_pending_mint t rid).2 := by
  unfold deny_pending_mint
  cases hfind : afind t.pending_mint_editions rid with
  | none => exact hI
  | some pr =>
      obtain ⟨d0, ben⟩ := pr
      simp only []
      refine ⟨hI.minted_lt, ?_, ?_, ?_, ?_, ?_, hI.year_minted, hI.year_nodup⟩
      · exact fun p hp => hI.pending_lt p (mem_of_mem_aerase hp)
      · exact fun p hp => hI.pending_retired p (mem_of_mem_aerase hp)
      · exact fun p hp => hI.pending_not_minted p (mem_of_mem_aerase hp)
      · exact hI.pending_keys_nodup.sublist
          ((aerase_sublist t.pending_mint_editions rid).map Prod.fst)
      · exact hI.pending_ids_nodup.sublist
          ((aerase_sublist t.pending_mint_editions rid).map
            (fun p : String × Detail × Nat => p.2.1.id))

/-- Full characterization of a successful `approve_pending_mint`. -/
theorem approve_spec (t : Tracker) (rid : String) (d0 : Detail) (ben : Nat)
    (hfind : afind t.pending_mint_editions rid = some (d0, ben)) :
    (approve_pending_mint t rid).1 = .ok (d0.minter, ben, d0.id, d0.supply) ∧
    (approve_pending_mint t rid).2.pending_mint_editions =
      aerase t.pending_mint_editions rid ∧
    (approve_pending_mint t rid).2.minted_editions =
      ainsert t.minted_editions d0.id d0 ∧
    (approve_pending_mint t rid).2.next_token_id = t.next_token_id ∧
    (approve_pending_mint t rid).2.last_minted_token_id = some d0.id ∧
    (approve_pending_mint t rid).2.year_mapping =
      ainsert t.year_mapping d0.year
        (((afind t.year_mapping d0.year).getD []) ++ [d0.id]) ∧
    (approve_pending_mint t rid).2.balances =
      ainsert t.balances ben
        (ainsert ((afind t.balances ben).getD []) d0.id d0.supply) := by
  unfold approve_pending_mint
  rw [hfind]
  simp only []
  cases hbe : afind t.balances ben with
  | none =>
      cases hye : afind t.year_mapping d0.year with
      | none => simp [hbe, hye, afind_ainsert_self, ainsert_ainsert_same]
      | some my => simp [hbe, hye, afind_ainsert_self, ainsert_ainsert_same]
  | some mb =>
      cases hye : afind t.year_mapping d0.year with
      | none => simp [hbe, hye, afind_ainsert_self, ainsert_ainsert_same]
      | some my => simp [hbe, hye, afind_ainsert_self, ainsert_ainsert_same]

theorem inv_approve (t : Tracker) (rid : String) (hI : TrackerInv t) :
    TrackerInv (approve_pending_mint t rid).2 := by
  cases hfind : afind t.pending_mint_editions rid with
  | none =>
      have : (approve_pending_mint t rid).2 = t := by
        unfold approve_pending_mint; rw [hfind]
      rw [this]; exact hI
  | some pr =>
      obtain ⟨d0, ben⟩ := pr
      obtain ⟨-, hp, hm, hn, -, hy, -⟩ := approve_spec t rid d0 ben hfind
      have hmem : (rid, (d0, ben)) ∈ t.pending_mint_editions := afind_mem hfind
      have hd0_not_minted : afind t.minted_editions d0.id = none :=
        hI.pending_not_minted _ hmem
      refine ⟨?_, ?_, ?_, ?_, ?_, ?_, ?_, ?_⟩
      · rw [hm, hn]
        intro p hp2
        rcases mem_ainsert hp2 with h1 | h1
        · subst h1; exact hI.pending_lt _ hmem
        · exact hI.minted_lt p h1
      · rw [hp, hn]
        exact fun p hp2 => hI.pending_lt p (mem_of_mem_aerase hp2)
      · rw [hp]
        exact fun p hp2 => hI.pending_retired p (mem_of_mem_aerase hp2)
      · rw [hp, hm]
        intro p hp2
        obtain ⟨hpm, hpk⟩ := mem_aerase_of_nodupkeys hI.pending_keys_nodup hp2
        have hne : p.2.1.id ≠ d0.id := by
          intro he
          have : p = (rid, (d0, ben)) :=
            List.inj_on_of_nodup_map hI.pending_ids_nodup hpm hmem he
          exact hpk (by rw [this])
        rw [afind_ainsert_ne _ _ _ _ hne]
        exact hI.pending_not_minted p hpm
      · rw [hp]
        exact hI.pending_keys_nodup.sublist
          ((aerase_sublist t.pending_mint_editions rid).map Prod.fst)
      · rw [hp]
        exact hI.pending_ids_nodup.sublist
          ((aerase_sublist t.pending_mint_editions rid).map
            (fun p : String × Detail × Nat => p.2.1.id))
      · rw [hy, hm]
        intro p hp2 id hid
        rcases mem_ainsert hp2 with h1 | h1
        · subst h1
          rcases List.mem_append.mp hid with h2 | h2
          · cases hyl : afind t.year_mapping d0.year with
            | none => rw [hyl] at h2; simp at h2
            | some l =>
                rw [hyl] at h2
                simp only [Option.getD_some] at h2
                exact afind_isSome_ainsert_mono _ _
                  (hI.year_minted _ (afind_mem hyl) id h2)
          · simp only [List.mem_singleton] at h2
            subst h2
            simp [afind_ainsert_self]
        · exact afind_isSome_ainsert_mono _ _ (hI.year_minted p h1 id hid)
      · rw [hy]
        intro p hp2
        rcases mem_ainsert hp2 with h1 | h1
        · subst h1
          simp only []
          cases hyl : afind t.year_mapping d0.year with
          | none => simp
          | some l =>
              simp only [Option.getD_some]
              rw [List.nodup_append]
              refine ⟨hI.year_nodup _ (afind_mem hyl), List.nodup_singleton _, ?_⟩
              intro x hx hx2
              simp only [List.mem_singleton] at hx2
              subst hx2
              have := hI.year_minted _ (afind_mem hyl) _ hx
              rw [hd0_not_minted] at this
              simp at this
        · exact hI.year_nodup p h1

theorem gabbi_minted_none {t : Tracker} {a tid : Nat}
    (h : afind t.minted_editions tid = none) :
    get_account_balance_by_id t a tid = .error .TokenNotFound := by
  unfold get_account_balance_by_id
  simp [h]

/-- If the edition is unknown, `transfer_token_by_id` cannot succeed. -/
theorem transferById_minted_none {t : Tracker} (a b tid amt : Nat)
    (h : afind t.minted_editions tid = none) :
    ∃ e, (transfer_token_by_id t a b tid amt).1 = .error e := by
  simp only [transfer_token_by_id]
  by_cases h0 : amt = 0
  · exact ⟨OperationError.CannotTransferZeroCarbonUnit, by simp [h0]⟩
  · simp only [if_neg h0]
    have h1 : afind (ensureBalanceMap t b).minted_editions tid = none := by
      rwa [ensure_minted]
    split
    · rw [gabbi_minted_none h1]
      exact ⟨_, rfl⟩
    · exact ⟨_, rfl⟩

theorem inv_retire (t : Tracker) (a tid amt : Nat) (hI : TrackerInv t) :
    TrackerInv (retire_token_id t a tid amt).2 := by
  unfold retire_token_id
  cases hr : transfer_token_by_id t a get_blackhole_address tid amt with
  | mk res t1 =>
      have hsk := byId_skel t a get_blackhole_address tid amt
      rw [hr] at hsk
      have hI1 : TrackerInv t1 :=
        inv_of_fields hI hsk.1 hsk.2.1 hsk.2.2.1 hsk.2.2.2.1
      cases res with
      | error e => exact hI1
      | ok v =>
          have hms : ∃ d, afind t.minted_editions tid = some d := by
            cases hnone : afind t.minted_editions tid with
            | none =>
                rcases transferById_minted_none a get_blackhole_address tid amt hnone
                  with ⟨e, he⟩
                rw [hr] at he
                simp at he
            | some d => exact ⟨d, rfl⟩
          obtain ⟨d, hd⟩ := hms
          have hd1 : afind t1.minted_editions tid = some d := by rw [hsk.1]; exact hd
          simp only [hd1, Option.get!]
          split
          · exact hI1
          · refine ⟨?_, ?_, ?_, ?_, ?_, ?_, ?_, ?_⟩
            · intro p hp
              rcases mem_ainsert hp with h1 | h1
              · have hp1 : p.1 = tid := by rw [h1]
                rw [hp1]
                exact Nat.lt_of_lt_of_eq (hI.minted_lt _ (afind_mem hd))
                  hsk.2.2.2.1.symm
              · exact hI1.minted_lt p h1
            · exact hI1.pending_lt
            · exact hI1.pending_retired
            · intro p hp
              have hpn := hI1.pending_not_minted p hp
              have hne : p.2.1.id ≠ tid := by
                intro he
                rw [he, hd1] at hpn
                simp at hpn
              rw [afind_ainsert_ne _ _ _ _ hne]
              exact hpn
            · exact hI1.pending_keys_nodup
            · exact hI1.pending_ids_nodup
            · intro p hp id hid
              exact afind_isSome_ainsert_mono _ _ (hI1.year_minted p hp id hid)
            · exact hI1.year_nodup

theorem inv_applyOp (t : Tracker) (op : Op) (hI : TrackerInv t) :
    TrackerInv (applyOp t op) := by
  cases op with
  | insertPending minter params bn ts => exact inv_insertPending t minter params bn ts hI
  | deny rid => exact inv_deny t rid hI
  | approve rid => exact inv_approve t rid hI
  | transferAll a b =>
      have h := transferAll_skel t a b
      exact inv_of_fields hI h.1 h.2.1 h.2.2.1 h.2.2.2.1
  | transferById a b tid amt =>
      have h := byId_skel t a b tid amt
      exact inv_of_fields hI h.1 h.2.1 h.2.2.1 h.2.2.2.1
  | transferByYear a b y amt =>
      have h := byYear_skel t a b y amt
      exact inv_of_fields hI h.1 h.2.1 h.2.2.1 h.2.2.2.1
  | transferCompounded a b ps =>
      have h := compounded_skel t a b ps
      exact inv_of_fields hI h.1 h.2.1 h.2.2.1 h.2.2.2.1
  | retire a tid amt => exact inv_retire t a tid amt hI

theorem inv_run (t : Tracker) (ops : List Op) (hI : TrackerInv t) :
    TrackerInv (run t ops) := by
  induction ops generalizing t with
  | nil => exact hI
  | cons op rest ih => exact ih (applyOp t op) (inv_applyOp t op hI)

/- ===== Per-edition conservation of supply + retired ===== -/

theorem minted_sum_applyOp (t : Tracker) (op : Op) (hI : TrackerInv t) (id : Nat)
    (d : Detail) (hd : afind t.minted_editions id = some d) :
    ∃ d', afind (applyOp t op).minted_editions id = some d' ∧
      d'.supply + d'.retired = d.supply + d.retired := by
  cases op with
  | insertPending minter params bn ts =>
      refine ⟨d, ?_, rfl⟩
      show afind (insert_pending_mint t minter params bn ts).2.minted_editions id = some d
      rw [(insertPending_skel t minter params bn ts).1]
      exact hd
  | deny rid =>
      refine ⟨d, ?_, rfl⟩
      show afind (deny_pending_mint t rid).2.minted_editions id = some d
      rw [(deny_skel t rid).1]
      exact hd
  | approve rid =>
      cases hfind : afind t.pending_mint_editions rid with
      | none =>
          refine ⟨d, ?_, rfl⟩
          show afind (approve_pending_mint t rid).2.minted_editions id = some d
          unfold approve_pending_mint
          rw [hfind]
          exact hd
      | some pr =>
          obtain ⟨d0, ben⟩ := pr
          obtain ⟨-, -, hm, -, -, -, -⟩ := approve_spec t rid d0 ben hfind
          have hne : id ≠ d0.id := by
            intro he
            have := hI.pending_not_minted _ (afind_mem hfind)
            rw [← he, hd] at this
            simp at this
          refine ⟨d, ?_, rfl⟩
          show afind (approve_pending_mint t rid).2.minted_editions id = some d
          rw [hm, afind_ainsert_ne _ _ _ _ hne]
          exact hd
  | transferAll a b =>
      refine ⟨d, ?_, rfl⟩
      rw [show (applyOp t (Op.transferAll a b)).minted_editions = t.minted_editions
        from (transferAll_skel t a b).1]
      exact hd
  | transferById a b tid amt =>
      refine ⟨d, ?_, rfl⟩
      rw [show (applyOp t (Op.transferById a b tid amt)).minted_editions =
        t.minted_editions from (byId_skel t a b tid amt).1]
      exact hd
  | transferByYear a b y amt =>
      refine ⟨d, ?_, rfl⟩
      rw [show (applyOp t (Op.transferByYear a b y amt)).minted_editions =
        t.minted_editions from (byYear_skel t a b y amt).1]
      exact hd
  | transferCompounded a b ps =>
      refine ⟨d, ?_, rfl⟩
      rw [show (applyOp t (Op.transferCompounded a b ps)).minted_editions =
        t.minted_editions from (compounded_skel t a b ps).1]
      exact hd
  | retire a tid amt =>
      show ∃ d', afind (retire_token_id t a tid amt).2.minted_editions id = some d' ∧
        d'.supply + d'.retired = d.supply + d.retired
      unfold retire_token_id
      cases hr : transfer_token_by_id t a get_blackhole_address tid amt with
      | mk res t1 =>
          have hsk := byId_skel t a get_blackhole_address tid amt
          rw [hr] at hsk
          have hd1 : afind t1.minted_editions id = some d := by rw [hsk.1]; exact hd
          cases res with
          | error e => exact ⟨d, hd1, rfl⟩
          | ok v =>
              have hms : ∃ dt, afind t.minted_editions tid = some dt := by
                cases hnone : afind t.minted_editions tid with
                | none =>
                    rcases transferById_minted_none a get_blackhole_address tid amt
                      hnone with ⟨e, he⟩
                    rw [hr] at he
                    simp at he
                | some dt => exact ⟨dt, rfl⟩
              obtain ⟨dt, hdt⟩ := hms
              have hdt1 : afind t1.minted_editions tid = some dt := by
                rw [hsk.1]; exact hdt
              simp only [hdt1, Option.get!]
              split
              · exact ⟨d, hd1, rfl⟩
              · rename_i hsup
                by_cases he : id = tid
                · subst he
                  rw [hd1] at hdt1
                  injection hdt1 with hdd
                  subst hdd
                  refine ⟨{ d with supply := d.supply - amt, retired := d.retired + amt }, ?_, ?_⟩
                  · simp [afind_ainsert_self]
                  · simp only []
                    omega
                · refine ⟨d, ?_, rfl⟩
                  simp only []
                  rw [afind_ainsert_ne _ _ _ _ he]
                  exact hd1

theorem minted_sum_run (ops : List Op) : ∀ t : Tracker, TrackerInv t →
    ∀ (id : Nat) (d : Detail), afind t.minted_editions id = some d →
    ∃ d', afind (run t ops).minted_editions id = some d' ∧
      d'.supply + d'.retired = d.supply + d.retired := by
  induction ops with
  | nil => exact fun t _ id d hd => ⟨d, hd, rfl⟩
  | cons op rest ih =>
      intro t hI id d hd
      obtain ⟨d1, hd1, hs1⟩ := minted_sum_applyOp t op hI id d hd
      obtain ⟨d2, hd2, hs2⟩ := ih (applyOp t op) (inv_applyOp t op hI) id d1 hd1
      exact ⟨d2, hd2, hs2.trans hs1⟩

/- ===== Positivity of stored balance entries ===== -/

theorem mapGood_empty : mapGood [] := ⟨by simp, by simp⟩

theorem mapGood_aerase {m : List (Nat × Nat)} (k : Nat) (h : mapGood m) :
    mapGood (aerase m k) :=
  ⟨fun q hq => h.1 q (mem_of_mem_aerase hq), nodupkeys_aerase k h.2⟩

theorem mapGood_ainsert {m : List (Nat × Nat)} (k v : Nat) (h : mapGood m)
    (hv : 0 < v) : mapGood (ainsert m k v) := by
  refine ⟨?_, nodupkeys_ainsert k v h.2⟩
  intro q hq
  rcases mem_ainsert hq with h1 | h1
  · subst h1; exact hv
  · exact h.1 q h1

theorem mapGood_creditOne {m : List (Nat × Nat)} {e : TokenEdition} (h : mapGood m)
    (he : 0 < e.amount) : mapGood (creditOne m e) :=
  ⟨creditOne_pos h.1 he, nodupkeys_creditOne e h.2⟩

theorem mapGood_creditAll {m : List (Nat × Nat)} {ds : List TokenEdition} (h : mapGood m)
    (hds : ∀ e ∈ ds, 0 < e.amount) : mapGood (creditAll m ds) :=
  ⟨creditAll_pos h.1 hds, nodupkeys_creditAll ds h.2⟩

theorem balGood_find {bs : List (Nat × List (Nat × Nat))} {c : Nat}
    {m : List (Nat × Nat)} (h : balGood bs) (hf : afind bs c = some m) : mapGood m :=
  h (c, m) (afind_mem hf)

theorem mapGood_getD {bs : List (Nat × List (Nat × Nat))} (h : balGood bs) (c : Nat) :
    mapGood ((afind bs c).getD []) := by
  cases hf : afind bs c with
  | none => exact mapGood_empty
  | some m => exact balGood_find h hf

theorem balGood_ainsert {bs : List (Nat × List (Nat × Nat))} {c : Nat}
    {sm : List (Nat × Nat)} (h : balGood bs) (hsm : mapGood sm) :
    balGood (ainsert bs c sm) := by
  intro p hp
  rcases mem_ainsert hp with h1 | h1
  · rw [h1]; exact hsm
  · exact h p h1

theorem balGood_ensure (t : Tracker) (b : Nat) (h : balGood t.balances) :
    balGood (ensureBalanceMap t b).balances := by
  unfold ensureBalanceMap
  split
  · exact h
  · exact balGood_ainsert h mapGood_empty

/-- Invariants carried through the year-walk loop: balance-map keys stay
duplicate-free, every non-positive entry is scheduled for removal, and all
recorded transfer details are positive. -/
theorem yearWalk_spec (yts : List Nat) :
    ∀ (m : List (Nat × Nat)) (remaining : Nat) (removals : List Nat)
      (details : List TokenEdition),
    (m.map Prod.fst).Nodup →
    (∀ p ∈ m, 0 < p.2 ∨ p.1 ∈ removals) →
    (∀ k ∈ removals, k ∉ yts) →
    yts.Nodup →
    (∀ e ∈ details, 0 < e.amount) →
    (((yearWalk yts m remaining removals details).1.map Prod.fst).Nodup ∧
     (∀ p ∈ (yearWalk yts m remaining removals details).1,
        0 < p.2 ∨ p.1 ∈ (yearWalk yts m remaining removals details).2.2.1) ∧
     (∀ e ∈ (yearWalk yts m remaining removals details).2.2.2, 0 < e.amount)) := by
  induction yts with
  | nil =>
      intro m remaining removals details hnd h1 h2 h3 h4
      exact ⟨hnd, h1, h4⟩
  | cons tid rest ih =>
      intro m remaining removals details hnd h1 h2 h3 h4
      have hrest_nodup : rest.Nodup := List.Nodup.of_cons h3
      have htid_not_rest : tid ∉ rest := by
        simp only [List.nodup_cons] at h3
        exact h3.1
      by_cases hrem : remaining = 0
      · have hw : yearWalk (tid :: rest) m remaining removals details =
            (m, remaining, removals, details) := by
          simp [yearWalk, hrem]
        rw [hw]
        exact ⟨hnd, h1, h4⟩
      · cases hf : afind m tid with
        | none =>
            have hw : yearWalk (tid :: rest) m remaining removals details =
                yearWalk rest m remaining removals details := by
              simp [yearWalk, hrem, hf]
            rw [hw]
            exact ih m remaining removals details hnd h1
              (fun k hk hmem => h2 k hk (List.mem_cons_of_mem _ hmem))
              hrest_nodup h4
        | some bal =>
            have htid_not_rem : tid ∉ removals := fun hmem =>
              h2 tid hmem (List.mem_cons_self _ _)
            have hbal_pos : 0 < bal := by
              rcases h1 (tid, bal) (afind_mem hf) with h | h
              · exact h
              · exact absurd h htid_not_rem
            by_cases hblt : bal < remaining
            · have hw : yearWalk (tid :: rest) m remaining removals details =
                  yearWalk rest (ainsert m tid 0) remaining (removals ++ [tid])
                    (details ++ [TokenEdition.mk tid bal]) := by
                simp [yearWalk, hrem, hf, hblt]
              rw [hw]
              refine ih _ _ _ _ (nodupkeys_ainsert tid 0 hnd) ?_ ?_ hrest_nodup ?_
              · intro p hp
                rcases mem_ainsert hp with hq | hq
                · subst hq
                  exact Or.inr (List.mem_append.mpr
                    (Or.inr (List.mem_singleton.mpr rfl)))
                · rcases h1 p hq with h | h
                  · exact Or.inl h
                  · exact Or.inr (List.mem_append.mpr (Or.inl h))
              · intro k hk
                rcases List.mem_append.mp hk with h | h
                · exact fun hmem => h2 k h (List.mem_cons_of_mem _ hmem)
                · simp only [List.mem_singleton] at h
                  subst h
                  exact htid_not_rest
              · intro e he
                rcases List.mem_append.mp he with h | h
                · exact h4 e h
                · simp only [List.mem_singleton] at h
                  subst h
                  exact hbal_pos
            · have hw : yearWalk (tid :: rest) m remaining removals details =
                  yearWalk rest (ainsert m tid (bal - remaining)) 0
                    (if bal - remaining = 0 then removals ++ [tid] else removals)
                    (details ++ [TokenEdition.mk tid remaining]) := by
                simp [yearWalk, hrem, hf, hblt]
              rw [hw]
              refine ih _ _ _ _ (nodupkeys_ainsert tid (bal - remaining) hnd)
                ?_ ?_ hrest_nodup ?_
              · intro p hp
                rcases mem_ainsert hp with hq | hq
                · subst hq
                  by_cases hz : bal - remaining = 0
                  · simp only [if_pos hz, hz]
                    exact Or.inr (List.mem_append.mpr
                      (Or.inr (List.mem_singleton.mpr rfl)))
                  · exact Or.inl (Nat.pos_of_ne_zero hz)
                · rcases h1 p hq with h | h
                  · exact Or.inl h
                  · split
                    · exact Or.inr (List.mem_append.mpr (Or.inl h))
                    · exact Or.inr h
              · intro k hk
                split at hk
                · rcases List.mem_append.mp hk with h | h
                  · exact fun hmem => h2 k h (List.mem_cons_of_mem _ hmem)
                  · simp only [List.mem_singleton] at h
                    subst h
                    exact htid_not_rest
                · exact fun hmem => h2 k hk (List.mem_cons_of_mem _ hmem)
              · intro e he
                rcases List.mem_append.mp he with h | h
                · exact h4 e h
                · simp only [List.mem_singleton] at h
                  subst h
                  exact Nat.pos_of_ne_zero hrem

theorem eraseAll_sublist (ks : List Nat) :
    ∀ m : List (Nat × Nat), (ks.foldl (fun mm k => aerase mm k) m).Sublist m := by
  induction ks with
  | nil => exact fun m => List.Sublist.refl m
  | cons k rest ih =>
      intro m
      exact (ih (aerase m k)).trans (aerase_sublist m k)

theorem eraseAll_mem (ks : List Nat) :
    ∀ (m : List (Nat × Nat)) (p : Nat × Nat), (m.map Prod.fst).Nodup →
    p ∈ ks.foldl (fun mm k => aerase mm k) m → p ∈ m ∧ p.1 ∉ ks := by
  induction ks with
  | nil => exact fun m p _ hp => ⟨hp, by simp⟩
  | cons k rest ih =>
      intro m p hnd hp
      obtain ⟨h1, h2⟩ := ih (aerase m k) p (nodupkeys_aerase k hnd) hp
      obtain ⟨h3, h4⟩ := mem_aerase_of_nodupkeys hnd h1
      refine ⟨h3, ?_⟩
      intro hmem
      rcases List.mem_cons.mp hmem with h | h
      · exact h4 h
      · exact h2 h

theorem balGood_byId (t : Tracker) (a b tid amt : Nat) (h : balGood t.balances) :
    balGood (transfer_token_by_id t a b tid amt).2.balances := by
  by_cases h0 : amt = 0
  · simp only [transfer_token_by_id, if_pos h0]
    exact h
  · simp only [transfer_token_by_id, if_neg h0]
    have hens := balGood_ensure t b h
    repeat' split
    any_goals exact hens
    · exact balGood_ainsert
        (balGood_ainsert hens (mapGood_aerase _ (mapGood_getD hens a)))
        (mapGood_creditOne
          (mapGood_getD (balGood_ainsert hens
            (mapGood_aerase _ (mapGood_getD hens a))) b)
          (Nat.pos_of_ne_zero h0))
    · rename_i hz
      exact balGood_ainsert
        (balGood_ainsert hens
          (mapGood_ainsert _ _ (mapGood_getD hens a) (Nat.pos_of_ne_zero hz)))
        (mapGood_creditOne
          (mapGood_getD (balGood_ainsert hens
            (mapGood_ainsert _ _ (mapGood_getD hens a) (Nat.pos_of_ne_zero hz))) b)
          (Nat.pos_of_ne_zero h0))

theorem balGood_transferAll (t : Tracker) (a b : Nat) (h : balGood t.balances) :
    balGood (transfer_token_all t a b).2.balances := by
  simp only [transfer_token_all]
  split
  · exact h
  · have hens := balGood_ensure t b h
    split
    · exact hens
    · rename_i m hm
      have hmg : mapGood m := balGood_find hens hm
      have hdet : ∀ e ∈ m.map (fun p => TokenEdition.mk p.1 p.2), 0 < e.amount := by
        intro e he
        rcases List.mem_map.mp he with ⟨p, hp, hpe⟩
        rw [← hpe]
        exact hmg.1 p hp
      exact balGood_ainsert (balGood_ainsert hens mapGood_empty)
        (mapGood_creditAll
          (mapGood_getD (balGood_ainsert hens mapGood_empty) b) hdet)

theorem balGood_walk_result (yts : List Nat) (m : List (Nat × Nat)) (amt : Nat)
    (hmg : mapGood m) (hyts : yts.Nodup) :
    mapGood ((yearWalk yts m amt [] []).2.2.1.foldl (fun mm k => aerase mm k)
      (yearWalk yts m amt [] []).1) ∧
    (∀ e ∈ (yearWalk yts m amt [] []).2.2.2, 0 < e.amount) := by
  have hw := yearWalk_spec yts m amt [] [] hmg.2
    (fun p hp => Or.inl (hmg.1 p hp)) (by simp) hyts (by simp)
  refine ⟨⟨?_, ?_⟩, hw.2.2⟩
  · intro p hp
    obtain ⟨hpm, hpk⟩ :=
      eraseAll_mem (yearWalk yts m amt [] []).2.2.1 (yearWalk yts m amt [] []).1 p
        hw.1 hp
    rcases hw.2.1 p hpm with hpos | hrem
    · exact hpos
    · exact absurd hrem hpk
  · exact hw.1.sublist
      ((eraseAll_sublist (yearWalk yts m amt [] []).2.2.1
        (yearWalk yts m amt [] []).1).map Prod.fst)

theorem balGood_byYear (t : Tracker) (a b y amt : Nat) (hI : TrackerInv t)
    (h : balGood t.balances) :
    balGood (transfer_token_by_year t a b y amt).2.balances := by
  by_cases h0 : amt = 0
  · simp only [transfer_token_by_year, if_pos h0]
    exact h
  · simp only [transfer_token_by_year, if_neg h0]
    have hens := balGood_ensure t b h
    split
    · split
      · exact hens
      · rename_i yts hyts
        split
        · exact hens
        · split
          · exact hens
          · have hmg : mapGood ((afind (ensureBalanceMap t b).balances a).getD []) :=
              mapGood_getD hens a
            have hyts_nodup : yts.Nodup := by
              have h2 : afind t.year_mapping y = some yts := by
                rwa [ensure_year] at hyts
              exact hI.year_nodup _ (afind_mem h2)
            obtain ⟨hm1, hdet⟩ := balGood_walk_result yts _ amt hmg hyts_nodup
            exact balGood_ainsert (balGood_ainsert hens hm1)
              (mapGood_creditAll (mapGood_getD (balGood_ainsert hens hm1) b) hdet)
    · exact hens

theorem balGood_compoundedApply (a b : Nat) (ps : List TokenEdition) :
    ∀ t : Tracker, balGood t.balances →
    balGood (compoundedApply t a b ps).2.balances := by
  induction ps with
  | nil => exact fun t h => h
  | cons e rest ih =>
      intro t h
      unfold compoundedApply
      cases hr : transfer_token_by_id t a b e.id e.amount with
      | mk res t1 =>
          have h1 : balGood t1.balances := by
            have := balGood_byId t a b e.id e.amount h
            rwa [hr] at this
          cases res with
          | error er => exact h1
          | ok v => exact ih t1 h1

theorem balGood_compounded (t : Tracker) (a b : Nat) (ps : List TokenEdition)
    (h : balGood t.balances) :
    balGood (transfer_token_compounded t a b ps).2.balances := by
  unfold transfer_token_compounded
  cases hm : afind t.balances a with
  | none => exact h
  | some m =>
      cases hv : compoundedValidate t m ps with
      | some e => simpa [hv] using h
      | none =>
          simp only [hv]
          exact balGood_compoundedApply a b ps t h

theorem balGood_retire (t : Tracker) (a tid amt : Nat) (h : balGood t.balances) :
    balGood (retire_token_id t a tid amt).2.balances := by
  unfold retire_token_id
  cases hr : transfer_token_by_id t a get_blackhole_address tid amt with
  | mk res t1 =>
      have h1 : balGood t1.balances := by
        have := balGood_byId t a get_blackhole_address tid amt h
        rwa [hr] at this
      cases res with
      | error er => exact h1
      | ok v =>
          simp only []
          split
          · exact h1
          · exact h1

theorem balGood_approve (t : Tracker) (rid : String) (h : balGood t.balances)
    (hpend : ∀ p ∈ t.pending_mint_editions, 0 < p.2.1.supply) :
    balGood (approve_pending_mint t rid).2.balances := by
  cases hfind : afind t.pending_mint_editions rid with
  | none =>
      have heq : (approve_pending_mint t rid).2 = t := by
        unfold approve_pending_mint; rw [hfind]
      rw [heq]
      exact h
  | some pr =>
      obtain ⟨d0, ben⟩ := pr
      obtain ⟨-, -, -, -, -, -, hb⟩ := approve_spec t rid d0 ben hfind
      rw [hb]
      exact balGood_ainsert h
        (mapGood_ainsert _ _ (mapGood_getD h ben) (hpend _ (afind_mem hfind)))

theorem pos_applyOp (t : Tracker) (op : Op) (hI : TrackerInv t) (hP : PosInv t)
    (hop : op.positiveMintB = true) : PosInv (applyOp t op) := by
  cases op with
  | insertPending minter params bn ts =>
      have hv : 0 < params.verified_carbon_unit := by
        simpa [Op.positiveMintB] using hop
      constructor
      · show balGood (insert_pending_mint t minter params bn ts).2.balances
        rw [(insertPending_skel t minter params bn ts).2.1]
        exact hP.bal
      · show ∀ p ∈ (insert_pending_mint t minter params bn ts).2.pending_mint_editions,
          0 < p.2.1.supply
        unfold insert_pending_mint
        split
        · exact hP.pending_pos
        · intro p hp
          rcases mem_ainsert hp with h1 | h1
          · rw [h1]
            exact hv
          · exact hP.pending_pos p h1
  | deny rid =>
      refine ⟨?_, ?_⟩
      · show balGood (deny_pending_mint t rid).2.balances
        rw [(deny_skel t rid).2.1]
        exact hP.bal
      · show ∀ p ∈ (deny_pending_mint t rid).2.pending_mint_editions, 0 < p.2.1.supply
        unfold deny_pending_mint
        cases afind t.pending_mint_editions rid with
        | none => exact hP.pending_pos
        | some pr =>
            obtain ⟨d0, ben⟩ := pr
            exact fun p hp => hP.pending_pos p (mem_of_mem_aerase hp)
  | approve rid =>
      refine ⟨balGood_approve t rid hP.bal hP.pending_pos, ?_⟩
      cases hfind : afind t.pending_mint_editions rid with
      | none =>
          have heq : (approve_pending_mint t rid).2 = t := by
            unfold approve_pending_mint; rw [hfind]
          show ∀ p ∈ (approve_pending_mint t rid).2.pending_mint_editions,
            0 < p.2.1.supply
          rw [heq]
          exact hP.pending_pos
      | some pr =>
          obtain ⟨d0, ben⟩ := pr
          obtain ⟨-, hp2, -, -, -, -, -⟩ := approve_spec t rid d0 ben hfind
          show ∀ p ∈ (approve_pending_mint t rid).2.pending_mint_editions,
            0 < p.2.1.supply
          rw [hp2]
          exact fun p hp => hP.pending_pos p (mem_of_mem_aerase hp)
  | transferAll a b =>
      exact ⟨balGood_transferAll t a b hP.bal, by
        show ∀ p ∈ (transfer_token_all t a b).2.pending_mint_editions, 0 < p.2.1.supply
        rw [(transferAll_skel t a b).2.1]
        exact hP.pending_pos⟩
  | transferById a b tid amt =>
      exact ⟨balGood_byId t a b tid amt hP.bal, by
        show ∀ p ∈ (transfer_token_by_id t a b tid amt).2.pending_mint_editions,
          0 < p.2.1.supply
        rw [(byId_skel t a b tid amt).2.1]
        exact hP.pending_pos⟩
  | transferByYear a b y amt =>
      exact ⟨balGood_byYear t a b y amt hI hP.bal, by
        show ∀ p ∈ (transfer_token_by_year t a b y amt).2.pending_mint_editions,
          0 < p.2.1.supply
        rw [(byYear_skel t a b y amt).2.1]
        exact hP.pending_pos⟩
  | transferCompounded a b ps =>
      exact ⟨balGood_compounded t a b ps hP.bal, by
        show ∀ p ∈ (transfer_token_compounded t a b ps).2.pending_mint_editions,
          0 < p.2.1.supply
        rw [(compounded_skel t a b ps).2.1]
        exact hP.pending_pos⟩
  | retire a tid amt =>
      exact ⟨balGood_retire t a tid amt hP.bal, by
        show ∀ p ∈ (retire_token_id t a tid amt).2.pending_mint_editions,
          0 < p.2.1.supply
        rw [(retire_skel t a tid amt).1]
        exact hP.pending_pos⟩

theorem pos_run (ops : List Op) : ∀ t : Tracker, TrackerInv t → PosInv t →
    (∀ op ∈ ops, op.positiveMintB = true) → PosInv (run t ops) := by
  induction ops with
  | nil => exact fun t _ hP _ => hP
  | cons op rest ih =>
      intro t hI hP hops
      exact ih (applyOp t op) (inv_applyOp t op hI)
        (pos_applyOp t op hI hP (hops op (List.mem_cons_self _ _)))
        (fun o ho => hops o (List.mem_cons_of_mem _ ho))

theorem pos_init : PosInv initTracker := by
  refine ⟨?_, ?_⟩
  · intro p hp
    simp [initTracker] at hp
  · intro p hp
    simp [initTracker] at hp

/- ===== Error-path and success-path characterizations ===== -/

theorem byId_error_state (t : Tracker) (a b tid amt : Nat) (e : OperationError)
    (r : Tracker) (h : transfer_token_by_id t a b tid amt = (.error e, r)) :
    r = t ∨ r = ensureBalanceMap t b := by
  simp only [transfer_token_by_id] at h
  repeat' split at h
  all_goals
    first
      | (exact Or.inl (by injection h with h1 h2; exact h2.symm))
      | (exact Or.inr (by injection h with h1 h2; exact h2.symm))
      | (injection h with h1 h2; exact absurd h1 (by simp))

theorem transferAll_error_state (t : Tracker) (a b : Nat) (e : OperationError)
    (r : Tracker) (h : transfer_token_all t a b = (.error e, r)) :
    r = t ∨ r = ensureBalanceMap t b := by
  simp only [transfer_token_all] at h
  repeat' split at h
  all_goals
    first
      | (exact Or.inl (by injection h with h1 h2; exact h2.symm))
      | (exact Or.inr (by injection h with h1 h2; exact h2.symm))
      | (injection h with h1 h2; exact absurd h1 (by simp))

theorem byYear_error_state (t : Tracker) (a b y amt : Nat) (e : OperationError)
    (r : Tracker) (h : transfer_token_by_year t a b y amt = (.error e, r)) :
    r = t ∨ r = ensureBalanceMap t b := by
  simp only [transfer_token_by_year] at h
  repeat' split at h
  all_goals
    first
      | (exact Or.inl (by injection h with h1 h2; exact h2.symm))
      | (exact Or.inr (by injection h with h1 h2; exact h2.symm))
      | (injection h with h1 h2; exact absurd h1 (by simp))

/-- Full characterization of a successful `transfer_token_by_id` between
distinct accounts. -/
theorem transferById_success (t : Tracker) (a b tid amt : Nat)
    (m : List (Nat × Nat)) (bal : Nat)
    (hm : afind t.balances a = some m) (hb : afind m tid = some bal)
    (hle : amt ≤ bal) (h0 : amt ≠ 0)
    (hminted : (afind t.minted_editions tid).isSome) (hab : a ≠ b) :
    (transfer_token_by_id t a b tid amt).1 = .ok (TokenEdition.mk tid amt) ∧
    afind (transfer_token_by_id t a b tid amt).2.balances a =
      some (if bal - amt = 0 then aerase m tid else ainsert m tid (bal - amt)) ∧
    afind (transfer_token_by_id t a b tid amt).2.balances b =
      some (creditOne ((afind t.balances b).getD []) (TokenEdition.mk tid amt)) ∧
    (∀ c, c ≠ a → c ≠ b →
      afind (transfer_token_by_id t a b tid amt).2.balances c = afind t.balances c) := by
  have hfa : afind (ensureBalanceMap t b).balances a = some m := by
    rw [ensure_find_ne t b a hab]
    exact hm
  have hg : get_account_balance_by_id (ensureBalanceMap t b) a tid = .ok bal := by
    unfold get_account_balance_by_id
    rw [ensure_minted, hfa]
    simp [hminted, hb]
  have hnlt : ¬ bal < amt := Nat.not_lt.mpr hle
  simp only [transfer_token_by_id, if_neg h0, hfa, hg, hb, hnlt, Option.isSome_some,
    Option.getD_some, if_true, if_false]
  have hb2 : afind (ainsert (ensureBalanceMap t b).balances a
      (if bal - amt = 0 then aerase m tid else ainsert m tid (bal - amt))) b =
      some ((afind t.balances b).getD []) := by
    rw [afind_ainsert_ne _ _ _ _ (fun hh => hab hh.symm)]
    exact ensure_find_self t b
  refine ⟨trivial, ?_, ?_, ?_⟩
  · rw [afind_ainsert_ne _ _ _ _ hab, afind_ainsert_self]
  · rw [afind_ainsert_self]
    rw [hb2]
    simp
  · intro c hca hcb
    rw [afind_ainsert_ne _ _ _ _ hcb, afind_ainsert_ne _ _ _ _ hca]
    exact ensure_find_ne t b c hcb

theorem retire_error (t : Tracker) (a tid amt : Nat) (e : OperationError)
    (t1 : Tracker)
    (hr : transfer_token_by_id t a get_blackhole_address tid amt = (.error e, t1)) :
    retire_token_id t a tid amt = (.error e, t1) ∧
    t1.minted_editions = t.minted_editions := by
  have hsk := byId_skel t a get_blackhole_address tid amt
  rw [hr] at hsk
  refine ⟨?_, hsk.1⟩
  unfold retire_token_id
  rw [hr]

theorem retire_corrupted (t : Tracker) (a tid amt : Nat) (d : Detail)
    (v : TokenEdition) (t1 : Tracker)
    (hr : transfer_token_by_id t a get_blackhole_address tid amt = (.ok v, t1))
    (hd : afind t.minted_editions tid = some d) (hlt : d.supply < amt) :
    retire_token_id t a tid amt = (.error .BlockchainCorrupted, t1) ∧
    t1.minted_editions = t.minted_editions := by
  have hsk := byId_skel t a get_blackhole_address tid amt
  rw [hr] at hsk
  have hd1 : afind t1.minted_editions tid = some d := by rw [hsk.1]; exact hd
  refine ⟨?_, hsk.1⟩
  unfold retire_token_id
  rw [hr]
  simp only [hd1, Option.get!]
  rw [if_pos hlt]

/-- Full characterization of a successful `retire_token_id`. -/
theorem retire_success (t : Tracker) (a tid amt : Nat) (d : Detail)
    (m : List (Nat × Nat)) (bal : Nat)
    (hd : afind t.minted_editions tid = some d)
    (hm : afind t.balances a = some m) (hb : afind m tid = some bal)
    (hle : amt ≤ bal) (h0 : amt ≠ 0) (hsup : amt ≤ d.supply)
    (ha : a ≠ get_blackhole_address) :
    (retire_token_id t a tid amt).1 = .ok () ∧
    afind (retire_token_id t a tid amt).2.minted_editions tid =
      some { d with supply := d.supply - amt, retired := d.retired + amt } ∧
    (∀ id, id ≠ tid → afind (retire_token_id t a tid amt).2.minted_editions id =
      afind t.minted_editions id) ∧
    afind (retire_token_id t a tid amt).2.balances a =
      some (if bal - amt = 0 then aerase m tid else ainsert m tid (bal - amt)) ∧
    afind (retire_token_id t a tid amt).2.balances get_blackhole_address =
      some (creditOne ((afind t.balances get_blackhole_address).getD [])
        (TokenEdition.mk tid amt)) := by
  obtain ⟨hok, hba, hbb, hbc⟩ := transferById_success t a get_blackhole_address tid amt
    m bal hm hb hle h0 (by rw [hd]; rfl) ha
  cases hr : transfer_token_by_id t a get_blackhole_address tid amt with
  | mk res t1 =>
      rw [hr] at hok hba hbb hbc
      simp only [] at hok hba hbb hbc
      cases res with
      | error er => simp at hok
      | ok v =>
          have hsk := byId_skel t a get_blackhole_address tid amt
          rw [hr] at hsk
          have hd1 : afind t1.minted_editions tid = some d := by rw [hsk.1]; exact hd
          have hres : retire_token_id t a tid amt =
              (.ok (),
               { t1 with
                   minted_editions :=
                     ainsert t1.minted_editions tid
                       { d with
                           supply := d.supply - amt
                           retired := d.retired + amt } }) := by
            unfold retire_token_id
            rw [hr]
            simp only [hd1, Option.get!]
            rw [if_neg (Nat.not_lt.mpr hsup)]
          rw [hres]
          refine ⟨rfl, ?_, ?_, ?_, ?_⟩
          · simp [afind_ainsert_self]
          · intro id hid
            simp only []
            rw [afind_ainsert_ne _ _ _ _ hid, hsk.1]
          · exact hba
          · exact hbb

/-- On a successful retirement, the contract message records a report whose
amount equals the retired amount and returns the fresh report id. -/
theorem own_retire_report (t : Tracker) (bk : Book) (caller tid amt bn ts : Nat)
    (r : Tracker) (hr : retire_token_id t caller tid amt = (.ok (), r))
    (d' : Detail) (hd' : afind r.minted_editions tid = some d') :
    (own_token_retire_by_id t bk caller tid amt bn ts).1 = .ok bk.next_retirement_id ∧
    ∃ rep : Report,
      afind (own_token_retire_by_id t bk caller tid amt bn ts).2.2.reports
        bk.next_retirement_id = some rep ∧ rep.amount = amt := by
  unfold own_token_retire_by_id
  rw [hr]
  simp only []
  unfold get_edition_details
  rw [hd']
  simp only []
  simp only [insert_new_report]
  split
  · exact ⟨trivial, ⟨_, by rw [afind_ainsert_self], rfl⟩⟩
  · exact ⟨trivial, ⟨_, by rw [afind_ainsert_self], rfl⟩⟩

theorem transferAll_zero (t : Tracker) (a b : Nat)
    (h : get_account_total_balance t a = 0) :
    transfer_token_all t a b = (.error .CannotTransferZeroCarbonUnit, t) := by
  simp [transfer_token_all, h]

theorem no_map_total_zero (t : Tracker) (a : Nat) (h : afind t.balances a = none) :
    get_account_total_balance t a = 0 := by
  simp [get_account_total_balance, h]

/-- Full characterization of a successful `transfer_token_all` between
distinct accounts. -/
theorem transferAll_success (t : Tracker) (a b : Nat) (m : List (Nat × Nat))
    (hm : afind t.balances a = some m)
    (hnz : get_account_total_balance t a ≠ 0) (hab : a ≠ b)
    (hnd : (m.map Prod.fst).Nodup) :
    (transfer_token_all t a b).1 = .ok (m.map fun p => TokenEdition.mk p.1 p.2) ∧
    afind (transfer_token_all t a b).2.balances a = some [] ∧
    (∀ tid, storedBalance (transfer_token_all t a b).2 b tid =
      storedBalance t b tid + storedBalance t a tid) ∧
    (∀ c, c ≠ a → c ≠ b →
      afind (transfer_token_all t a b).2.balances c = afind t.balances c) := by
  have hfa : afind (ensureBalanceMap t b).balances a = some m := by
    rw [ensure_find_ne t b a hab]
    exact hm
  simp only [transfer_token_all, if_neg hnz, hfa]
  have hba : afind (ainsert (ensureBalanceMap t b).balances a []) b =
      some ((afind t.balances b).getD []) := by
    rw [afind_ainsert_ne _ _ _ _ (fun hh => hab hh.symm)]
    exact ensure_find_self t b
  refine ⟨trivial, ?_, ?_, ?_⟩
  · rw [afind_ainsert_ne _ _ _ _ hab, afind_ainsert_self]
  · intro tid
    simp only [storedBalance]
    rw [afind_ainsert_self]
    simp only [Option.getD_some, hba, Option.getD_some, hm]
    have hids : ((m.map fun p => TokenEdition.mk p.1 p.2).map TokenEdition.id).Nodup := by
      rw [List.map_map]
      exact hnd
    cases hf : afind m tid with
    | none =>
        have hnotin : ∀ e ∈ m.map fun p => TokenEdition.mk p.1 p.2, e.id ≠ tid := by
          intro e he hid
          rcases List.mem_map.mp he with ⟨p, hp, hpe⟩
          have : p.1 = tid := by rw [← hpe] at hid; exact hid
          exact (afind_eq_none hf p hp) this
        rw [afind_creditAll_not_mem _ _ _ hnotin]
        simp
    | some v =>
        have hmem : TokenEdition.mk tid v ∈ m.map fun p => TokenEdition.mk p.1 p.2 :=
          List.mem_map.mpr ⟨(tid, v), afind_mem hf, rfl⟩
        have := afind_creditAll_mem ((afind t.balances b).getD []) hids hmem
        simp only [] at this
        rw [this]
        simp
  · intro c hca hcb
    rw [afind_ainsert_ne _ _ _ _ hcb, afind_ainsert_ne _ _ _ _ hca]
    exact ensure_find_ne t b c hcb

theorem gabbi_error_kind (t : Tracker) (a tid : Nat) (e : OperationError)
    (h : get_account_balance_by_id t a tid = .error e) : e = .TokenNotFound := by
  unfold get_account_balance_by_id at h
  repeat' split at h
  all_goals
    first
      | exact Except.noConfusion h
      | (injection h with h1; exact h1.symm)

/-- `transfer_token_by_id` never signals `BlockchainCorrupted` itself. -/
theorem byId_error_kind (t : Tracker) (a b tid amt : Nat) (e : OperationError)
    (r : Tracker) (h : transfer_token_by_id t a b tid amt = (.error e, r)) :
    e ≠ .BlockchainCorrupted := by
  intro hc
  subst hc
  simp only [transfer_token_by_id] at h
  repeat' split at h
  all_goals (injection h with h1 h2)
  all_goals (try exact Except.noConfusion h1)
  all_goals (injection h1 with h1)
  all_goals (try (simp at h1))
  rename_i heq
  subst h1
  exact absurd (gabbi_error_kind _ _ _ _ heq) (by simp)

theorem retire_corrupted_only (t : Tracker) (a tid amt : Nat) (t1 : Tracker)
    (h : retire_token_id t a tid amt = (.error .BlockchainCorrupted, t1)) :
    ∃ v, transfer_token_by_id t a get_blackhole_address tid amt = (.ok v, t1) ∧
      ∃ d, afind t.minted_editions tid = some d ∧ d.supply < amt := by
  unfold retire_token_id at h
  cases hr : transfer_token_by_id t a get_blackhole_address tid amt with
  | mk res t2 =>
      rw [hr] at h
      cases res with
      | error e =>
          simp only [] at h
          injection h with h1 h2
          injection h1 with h1
          exact absurd h1 (byId_error_kind t a get_blackhole_address tid amt e t2 hr)
      | ok v =>
          have hms : ∃ d, afind t.minted_editions tid = some d := by
            cases hnone : afind t.minted_editions tid with
            | none =>
                rcases transferById_minted_none a get_blackhole_address tid amt hnone
                  with ⟨e, he⟩
                rw [hr] at he
                simp at he
            | some d => exact ⟨d, rfl⟩
          obtain ⟨d, hd⟩ := hms
          have hsk := byId_skel t a get_blackhole_address tid amt
          rw [hr] at hsk
          have hd2 : afind t2.minted_editions tid = some d := by rw [hsk.1]; exact hd
          simp only [hd2, Option.get!] at h
          split at h
          · injection h with h1 h2
            subst h2
            exact ⟨v, rfl, d, hd, by assumption⟩
          · simp at h

/- ===== The claims ===== -/

/-- C1: the spec claims that a successful `transfer_by_year(from, to, year,
amount)` walk (amount > 0, year indexed, aggregate balance ≥ amount) visits
the year's edition ids in index order and returns (edition, drained) pairs
summing to exactly `amount`, with `from` debited and `to` credited by those
amounts.  The code violates the exact-sum part: on a ledger where account 1
holds 5 of edition 0 and 10 of edition 1 (aggregate 15 ≥ 8), a transfer of
8 drains 5 + 8 = 13 units, because the "edition fully drained" branch
subtracts the balance after zeroing it, leaving the remaining amount
undiminished.  This theorem evaluates the code at that failing input. -/
theorem claim1_year_walk_behavior :
    ((0 : Nat) < 8 ∧ (afind walkState.year_mapping 2000).isSome ∧
      get_account_balance_by_year walkState 1 2000 = .ok 15) ∧
    (transfer_token_by_year walkState 1 2 2000 8).1 =
      .ok [TokenEdition.mk 0 5, TokenEdition.mk 1 8] ∧
    ([TokenEdition.mk 0 5, TokenEdition.mk 1 8].map TokenEdition.amount).sum = 13 ∧
    afind (transfer_token_by_year walkState 1 2 2000 8).2.balances 1 =
      some [(1, 2)] ∧
    afind (transfer_token_by_year walkState 1 2 2000 8).2.balances 2 =
      some [(0, 5), (1, 8)] := by
  decide

/-- C2: the spec claims `transfer_compounded` is all-or-nothing: pass 1
validates every (edition, amount) pair — existence, non-zero amount,
sufficient balance — and pass 2 runs only if validation fully passes, so no
call leaves a partially applied bundle.  The code's pass-1 sufficiency
check reads `!balance < amount` (bitwise NOT of the u64 balance), which is
false for every realistic balance, so insufficiency is never caught in
pass 1; pass 2 then aborts midway via `transfer_by_id`, leaving a partial
bundle.  Here account 1 holds 5 of edition 0, the bundle asks (0,3) twice:
validation passes, the first pair commits, the second fails, and the call
errors with `from` at 2 and `to` at 3. -/
theorem claim2_compounded_bundle_splits :
    compoundedValidate bundleState [(0, 5)]
      [TokenEdition.mk 0 3, TokenEdition.mk 0 3] = none ∧
    compoundedValidate bundleState [(0, 2)] [TokenEdition.mk 0 5] = none ∧
    (transfer_token_compounded bundleState 1 2
      [TokenEdition.mk 0 3, TokenEdition.mk 0 3]).1 =
      .error .InsufficientCarbonUnit ∧
    afind bundleState.balances 1 = some [(0, 5)] ∧
    afind bundleState.balances 2 = none ∧
    afind (transfer_token_compounded bundleState 1 2
      [TokenEdition.mk 0 3, TokenEdition.mk 0 3]).2.balances 1 = some [(0, 2)] ∧
    afind (transfer_token_compounded bundleState 1 2
      [TokenEdition.mk 0 3, TokenEdition.mk 0 3]).2.balances 2 = some [(0, 3)] := by
  decide

/-- C3: conservation of supply.  (1) For every pending request (d, ben)
reachable from the empty ledger, after its approval and any further
operation sequence the minted edition `d.id` satisfies
`supply + retired = d.supply` (the verified amount, since pending requests
carry `retired = 0`).  (2)-(5) no transfer operation changes
`minted_editions`, hence `get_total_supply` is unchanged by transfers. -/
theorem claim3_conservation :
    (∀ (ops0 : List Op) (rid : String) (d : Detail) (ben : Nat) (ops1 : List Op)
       (d' : Detail),
       afind (run initTracker ops0).pending_mint_editions rid = some (d, ben) →
       afind (run (applyOp (run initTracker ops0) (Op.approve rid))
         ops1).minted_editions d.id = some d' →
       d'.supply + d'.retired = d.supply) ∧
    (∀ t a b, (transfer_token_all t a b).2.minted_editions = t.minted_editions ∧
       get_total_supply (transfer_token_all t a b).2 = get_total_supply t) ∧
    (∀ t a b tid amt,
       (transfer_token_by_id t a b tid amt).2.minted_editions = t.minted_editions ∧
       get_total_supply (transfer_token_by_id t a b tid amt).2 = get_total_supply t) ∧
    (∀ t a b y amt,
       (transfer_token_by_year t a b y amt).2.minted_editions = t.minted_editions ∧
       get_total_supply (transfer_token_by_year t a b y amt).2 = get_total_supply t) ∧
    (∀ t a b ps,
       (transfer_token_compounded t a b ps).2.minted_editions = t.minted_editions ∧
       get_total_supply (transfer_token_compounded t a b ps).2 =
         get_total_supply t) := by
  refine ⟨?_, ?_, ?_, ?_, ?_⟩
  · intro ops0 rid d ben ops1 d' hpend hfin
    have hI0 : TrackerInv (run initTracker ops0) := inv_run _ _ inv_init
    have hret : d.retired = 0 := hI0.pending_retired _ (afind_mem hpend)
    obtain ⟨-, -, hm2, -, -, -, -⟩ := approve_spec _ rid d ben hpend
    have hmint : afind (applyOp (run initTracker ops0)
        (Op.approve rid)).minted_editions d.id = some d := by
      show afind (approve_pending_mint (run initTracker ops0)
        rid).2.minted_editions d.id = some d
      rw [hm2, afind_ainsert_self]
    have hI1 : TrackerInv (applyOp (run initTracker ops0) (Op.approve rid)) :=
      inv_applyOp _ _ hI0
    obtain ⟨d2, hd2, hs2⟩ := minted_sum_run ops1 _ hI1 d.id d hmint
    rw [hfin] at hd2
    injection hd2 with he
    subst he
    rw [hret] at hs2
    simpa using hs2
  · exact fun t a b =>
      ⟨(transferAll_skel t a b).1, get_total_supply_congr (transferAll_skel t a b).1⟩
  · exact fun t a b tid amt =>
      ⟨(byId_skel t a b tid amt).1, get_total_supply_congr (byId_skel t a b tid amt).1⟩
  · exact fun t a b y amt =>
      ⟨(byYear_skel t a b y amt).1,
       get_total_supply_congr (byYear_skel t a b y amt).1⟩
  · exact fun t a b ps =>
      ⟨(compounded_skel t a b ps).1,
       get_total_supply_congr (compounded_skel t a b ps).1⟩

/-- Witness for C3: a 7-unit request "R" is made and approved, then 4 units
are transferred; the edition still satisfies supply + retired = 7. -/
theorem claim3_conservation_witness :
    (⟨0, 0, 0, 1, 7, 0, 2000, "R"⟩ : Detail).supply +
      (⟨0, 0, 0, 1, 7, 0, 2000, "R"⟩ : Detail).retired =
    (⟨0, 0, 0, 1, 7, 0, 2000, "R"⟩ : Detail).supply :=
  claim3_conservation.1 [Op.insertPending 1 ⟨"R", 7, 2000, 2⟩ 0 0] ("R")
    ⟨0, 0, 0, 1, 7, 0, 2000, "R"⟩ 2 [Op.transferById 2 3 0 4]
    ⟨0, 0, 0, 1, 7, 0, 2000, "R"⟩ (by decide) (by decide)

/-- Counterexample for C4: on the empty ledger, `transfer_by_id(1, 2, 0, 5)`
returns `InsufficientCarbonUnit`, yet the state is not the one before the
call — an empty balance map has been created for the target account 2
before validation. -/
theorem claim4_counterexample :
    (transfer_token_by_id initTracker 1 2 0 5).1 = .error .InsufficientCarbonUnit ∧
    (transfer_token_by_id initTracker 1 2 0 5).2 ≠ initTracker ∧
    (transfer_token_by_id initTracker 1 2 0 5).2.balances = [(2, [])] := by
  decide

/-- C4 as amended: each of `transfer_all`, `transfer_by_id` and
`transfer_by_year` may insert an empty balance map for the target account
before validating; apart from that initialization, an error return leaves
the ledger exactly as it was — the result state is either the original
state or the original state with the target's empty balance map ensured. -/
theorem claim4_transfer_error_state :
    (∀ t a b e r, transfer_token_all t a b = (.error e, r) →
       r = t ∨ r = ensureBalanceMap t b) ∧
    (∀ t a b tid amt e r, transfer_token_by_id t a b tid amt = (.error e, r) →
       r = t ∨ r = ensureBalanceMap t b) ∧
    (∀ t a b y amt e r, transfer_token_by_year t a b y amt = (.error e, r) →
       r = t ∨ r = ensureBalanceMap t b) :=
  ⟨fun t a b e r h => transferAll_error_state t a b e r h,
   fun t a b tid amt e r h => byId_error_state t a b tid amt e r h,
   fun t a b y amt e r h => byYear_error_state t a b y amt e r h⟩

/-- Witness for C4's amended theorem at the counterexample input. -/
theorem claim4_transfer_error_state_witness :
    (transfer_token_by_id initTracker 1 2 0 5).2 = initTracker ∨
    (transfer_token_by_id initTracker 1 2 0 5).2 = ensureBalanceMap initTracker 2 :=
  claim4_transfer_error_state.2.1 initTracker 1 2 0 5 .InsufficientCarbonUnit
    (transfer_token_by_id initTracker 1 2 0 5).2 (by decide)

/-- Counterexample for C5: a mint request with verified amount 0 is never
rejected, and approving it inserts a stored balance entry with amount 0 for
the beneficiary — reachable from the empty ledger in two operations. -/
theorem claim5_counterexample :
    afind (run initTracker [Op.insertPending 1 ⟨"R0", 0, 2000, 2⟩ 0 0,
      Op.approve ("R0")]).balances 2 = some [(0, 0)] ∧
    ¬ (∀ p ∈ (run initTracker [Op.insertPending 1 ⟨"R0", 0, 2000, 2⟩ 0 0,
        Op.approve ("R0")]).balances, ∀ q ∈ p.2, 0 < q.2) := by
  refine ⟨by decide, ?_⟩
  intro h
  have h2 := h (2, [(0, 0)]) (by decide) (0, 0) (by decide)
  exact absurd h2 (by decide)

/-- C5 as amended: in every ledger state reachable from the empty ledger by
operations whose mint requests all carry a positive verified amount, every
stored (account, edition) balance entry is strictly positive — operations
that drive an entry to 0 remove it, and transfers only create positive
entries; only the approval of a zero-amount mint request (never validated)
can insert a zero entry. -/
theorem claim5_positive_balances (ops : List Op)
    (hops : ∀ op ∈ ops, op.positiveMintB = true) :
    ∀ p ∈ (run initTracker ops).balances, ∀ q ∈ p.2, 0 < q.2 :=
  fun p hp q hq =>
    ((pos_run ops initTracker inv_init pos_init hops).bal p hp).1 q hq

/-- Witness for C5's amended theorem: mint 5 units to account 2, approve,
transfer 4 of them to account 3; the beneficiary's remaining stored entry
(edition 0, amount 1) is positive. -/
theorem claim5_positive_balances_witness : (0 : Nat) < 1 :=
  claim5_positive_balances
    [Op.insertPending 1 ⟨"R1", 5, 2000, 2⟩ 0 0, Op.approve ("R1"),
     Op.transferById 2 3 0 4] (by decide) (2, [(0, 1)]) (by decide)
    (0, 1) (by decide)

/-- Counterexample for C6: when `from` has no balance map at all, the call
fails with `CannotTransferZeroCarbonUnit` (the total-balance-0 check fires
first), not with `InsufficientCarbonUnit` as the claim states — that branch
is unreachable. -/
theorem claim6_counterexample :
    afind initTracker.balances 1 = none ∧
    (transfer_token_all initTracker 1 2).1 = .error .CannotTransferZeroCarbonUnit ∧
    (transfer_token_all initTracker 1 2).1 ≠ .error .InsufficientCarbonUnit := by
  decide

/-- C6 as amended: `transfer_all(from, to)` fails with
`CannotTransferZeroCarbonUnit` whenever `from`'s total balance is 0 —
including whenever `from` has no balance map at all, since a missing map
means total balance 0 (the `InsufficientCarbonUnit` branch is dead code);
otherwise (for `from ≠ to`, with the stored map duplicate-free) it moves
every (edition, amount) pair to `to`, merging by addition, clears `from`'s
balance map (leaving it present but empty), leaves all other accounts
untouched, and returns the list of moved pairs. -/
theorem claim6_transfer_all :
    (∀ t a b, get_account_total_balance t a = 0 →
       transfer_token_all t a b = (.error .CannotTransferZeroCarbonUnit, t)) ∧
    (∀ t a b, afind t.balances a = none →
       transfer_token_all t a b = (.error .CannotTransferZeroCarbonUnit, t)) ∧
    (∀ t a b m, afind t.balances a = some m →
       get_account_total_balance t a ≠ 0 → a ≠ b → (m.map Prod.fst).Nodup →
       (transfer_token_all t a b).1 =
         .ok (m.map fun p => TokenEdition.mk p.1 p.2) ∧
       afind (transfer_token_all t a b).2.balances a = some [] ∧
       (∀ tid, storedBalance (transfer_token_all t a b).2 b tid =
         storedBalance t b tid + storedBalance t a tid) ∧
       (∀ c, c ≠ a → c ≠ b →
         afind (transfer_token_all t a b).2.balances c = afind t.balances c)) :=
  ⟨fun t a b h => transferAll_zero t a b h,
   fun t a b h => transferAll_zero t a b (no_map_total_zero t a h),
   fun t a b m hm hnz hab hnd => transferAll_success t a b m hm hnz hab hnd⟩

/-- Witness for C6's amended theorem: account 1's 5 units of edition 0 are
merged into account 2's existing 7. -/
theorem claim6_transfer_all_witness :
    storedBalance (transfer_token_all allState 1 2).2 2 0 =
      storedBalance allState 2 0 + storedBalance allState 1 0 :=
  (claim6_transfer_all.2.2 allState 1 2 [(0, 5), (1, 10)] (by decide) (by decide)
    (by decide) (by decide)).2.2.1 0

/-- C7: `approve_mint(registry_id)` fails with `TokenMintRequestNotFound`
and leaves the state unchanged when no pending request exists; the pending
request created by `request_mint` stores a detail with supply equal to the
verified amount, retired 0 and the freshly allocated id; and approving a
pending request (d, ben) removes it, stores edition `d.id` with exactly the
pending detail (so supply = verified amount, retired = 0), sets the
beneficiary's balance for `d.id` to `d.supply`, appends `d.id` to the
issuance-year index, sets the last-minted id, and returns
(minter, beneficiary, edition id, amount). -/
theorem claim7_approve_mint :
    (∀ t rid, afind t.pending_mint_editions rid = none →
       approve_pending_mint t rid = (.error .TokenMintRequestNotFound, t)) ∧
    (∀ t minter params bn ts r,
       insert_pending_mint t minter params bn ts = (.ok (), r) →
       afind r.pending_mint_editions params.registry_id =
         some ({ id := t.next_token_id, block_number := bn, timestamp := ts,
                 minter := minter, supply := params.verified_carbon_unit,
                 retired := 0, year := params.issuance_year,
                 registry_id := params.registry_id }, params.beneficiary)) ∧
    (∀ t rid d ben, afind t.pending_mint_editions rid = some (d, ben) →
       (approve_pending_mint t rid).1 = .ok (d.minter, ben, d.id, d.supply) ∧
       (approve_pending_mint t rid).2.pending_mint_editions =
         aerase t.pending_mint_editions rid ∧
       afind (approve_pending_mint t rid).2.minted_editions d.id = some d ∧
       afind ((afind (approve_pending_mint t rid).2.balances ben).getD []) d.id =
         some d.supply ∧
       afind (approve_pending_mint t rid).2.year_mapping d.year =
         some (((afind t.year_mapping d.year).getD []) ++ [d.id]) ∧
       (approve_pending_mint t rid).2.last_minted_token_id = some d.id) := by
  refine ⟨?_, ?_, ?_⟩
  · intro t rid h
    unfold approve_pending_mint
    rw [h]
  · intro t minter params bn ts r h
    unfold insert_pending_mint at h
    split at h
    · exact absurd (congrArg Prod.fst h) (by simp)
    · injection h with h1 h2
      rw [← h2]
      simp only [take_next_token_id]
      rw [afind_ainsert_self]
  · intro t rid d ben hfind
    obtain ⟨hok, hp2, hm2, -, hl2, hy2, hb2⟩ := approve_spec t rid d ben hfind
    refine ⟨hok, hp2, ?_, ?_, ?_, hl2⟩
    · rw [hm2, afind_ainsert_self]
    · rw [hb2, afind_ainsert_self]
      simp only [Option.getD_some]
      rw [afind_ainsert_self]
    · rw [hy2, afind_ainsert_self]

/-- Witness for C7 at the one-pending-request state. -/
theorem claim7_approve_mint_witness :
    (approve_pending_mint requestState ("R")).1 = .ok (1, 2, 0, 7) :=
  (claim7_approve_mint.2.2 requestState ("R") ⟨0, 0, 0, 1, 7, 0, 2000, "R"⟩ 2
    (by decide)).1

/-- C8: edition ids come from a single monotonically increasing counter
reserved at request time and are never reused or rolled back: a successful
`request_mint` stores a pending detail whose id is the current counter and
bumps the counter by one; no operation ever decreases the counter (per
operation and along any run); in every state reachable from the empty
ledger, all minted and pending ids are strictly below the counter (so a
fresh id exceeds every previously allocated one); and `deny_mint` removes
the pending request while leaving the editions, balances, year index,
last-minted id and — in particular — the counter untouched, so denied
requests leave permanent gaps. -/
theorem claim8_edition_ids :
    (∀ t minter params bn ts r,
       insert_pending_mint t minter params bn ts = (.ok (), r) →
       r.next_token_id = t.next_token_id + 1 ∧
       (∃ d ben, afind r.pending_mint_editions params.registry_id = some (d, ben) ∧
          d.id = t.next_token_id)) ∧
    (∀ t op, t.next_token_id ≤ (applyOp t op).next_token_id) ∧
    (∀ t ops, t.next_token_id ≤ (run t ops).next_token_id) ∧
    (∀ ops, ∀ p ∈ (run initTracker ops).minted_editions,
       p.1 < (run initTracker ops).next_token_id) ∧
    (∀ ops, ∀ p ∈ (run initTracker ops).pending_mint_editions,
       p.2.1.id < (run initTracker ops).next_token_id) ∧
    (∀ t rid minter r, deny_pending_mint t rid = (.ok minter, r) →
       r.minted_editions = t.minted_editions ∧ r.balances = t.balances ∧
       r.year_mapping = t.year_mapping ∧
       r.next_token_id = t.next_token_id ∧
       r.last_minted_token_id = t.last_minted_token_id ∧
       r.pending_mint_editions = aerase t.pending_mint_editions rid) := by
  refine ⟨?_, applyOp_next_mono, run_next_mono, ?_, ?_, ?_⟩
  · intro t minter params bn ts r h
    unfold insert_pending_mint at h
    split at h
    · exact absurd (congrArg Prod.fst h) (by simp)
    · injection h with h1 h2
      rw [← h2]
      simp only [take_next_token_id]
      exact ⟨by trivial, ⟨_, params.beneficiary, afind_ainsert_self _ _ _, by trivial⟩⟩
  · exact fun ops => (inv_run initTracker ops inv_init).minted_lt
  · exact fun ops => (inv_run initTracker ops inv_init).pending_lt
  · intro t rid minter r h
    unfold deny_pending_mint at h
    cases hfind : afind t.pending_mint_editions rid with
    | none =>
        rw [hfind] at h
        exact absurd (congrArg Prod.fst h) (by simp)
    | some pr =>
        obtain ⟨d0, ben⟩ := pr
        rw [hfind] at h
        injection h with h1 h2
        rw [← h2]
        exact ⟨rfl, rfl, rfl, rfl, rfl, rfl⟩

/-- Witness for C8: the first request on the empty ledger reserves id 0 and
bumps the counter to 1. -/
theorem claim8_edition_ids_witness :
    (insert_pending_mint initTracker 1 ⟨"R", 7, 2000, 2⟩ 0 0).2.next_token_id =
      initTracker.next_token_id + 1 :=
  (claim8_edition_ids.1 initTracker 1 ⟨"R", 7, 2000, 2⟩ 0 0
    (insert_pending_mint initTracker 1 ⟨"R", 7, 2000, 2⟩ 0 0).2 (by decide)).1

/-- C9: `retire(from, edition, n)`.  (1) When `from` holds at least `n` of
the edition, `n > 0` and the edition's supply is at least `n` (the claim's
own `BlockchainCorrupted` carve-out excludes `supply < n`), the call
succeeds: `n` units move from `from` to the blackhole account (the
source entry is decremented, removed when it reaches 0; the blackhole is
credited `n`), supply decreases by `n` and retired increases by `n`, other
editions untouched.  (2) When the underlying transfer fails, its error is
propagated unchanged and all supply/retired fields are unchanged.
(3) When the transfer commits but the supply is less than `n`,
`BlockchainCorrupted` is returned with the transfer already committed —
state partially mutated, supply/retired unchanged.  (4) Conversely
`BlockchainCorrupted` is returned only in that situation.  (5) On success
the contract-level call records a retirement report with amount exactly
`n` and returns the fresh report id. -/
theorem claim9_retire :
    (∀ t a tid amt d m bal, afind t.minted_editions tid = some d →
       afind t.balances a = some m → afind m tid = some bal → amt ≤ bal →
       amt ≠ 0 → amt ≤ d.supply → a ≠ get_blackhole_address →
       (retire_token_id t a tid amt).1 = .ok () ∧
       afind (retire_token_id t a tid amt).2.minted_editions tid =
         some { d with supply := d.supply - amt, retired := d.retired + amt } ∧
       (∀ id, id ≠ tid → afind (retire_token_id t a tid amt).2.minted_editions id =
         afind t.minted_editions id) ∧
       afind (retire_token_id t a tid amt).2.balances a =
         some (if bal - amt = 0 then aerase m tid else ainsert m tid (bal - amt)) ∧
       afind (retire_token_id t a tid amt).2.balances get_blackhole_address =
         some (creditOne ((afind t.balances get_blackhole_address).getD [])
           (TokenEdition.mk tid amt))) ∧
    (∀ t a tid amt e t1,
       transfer_token_by_id t a get_blackhole_address tid amt = (.error e, t1) →
       retire_token_id t a tid amt = (.error e, t1) ∧
       t1.minted_editions = t.minted_editions) ∧
    (∀ t a tid amt d v t1,
       transfer_token_by_id t a get_blackhole_address tid amt = (.ok v, t1) →
       afind t.minted_editions tid = some d → d.supply < amt →
       retire_token_id t a tid amt = (.error .BlockchainCorrupted, t1) ∧
       t1.minted_editions = t.minted_editions) ∧
    (∀ t a tid amt t1,
       retire_token_id t a tid amt = (.error .BlockchainCorrupted, t1) →
       ∃ v, transfer_token_by_id t a get_blackhole_address tid amt = (.ok v, t1) ∧
         ∃ d, afind t.minted_editions tid = some d ∧ d.supply < amt) ∧
    (∀ t bk caller tid amt bn ts r d',
       retire_token_id t caller tid amt = (.ok (), r) →
       afind r.minted_editions tid = some d' →
       (own_token_retire_by_id t bk caller tid amt bn ts).1 =
         .ok bk.next_retirement_id ∧
       ∃ rep : Report,
         afind (own_token_retire_by_id t bk caller tid amt bn ts).2.2.reports
           bk.next_retirement_id = some rep ∧ rep.amount = amt) :=
  ⟨fun t a tid amt d m bal hd hm hb hle h0 hsup ha =>
     retire_success t a tid amt d m bal hd hm hb hle h0 hsup ha,
   fun t a tid amt e t1 hr => retire_error t a tid amt e t1 hr,
   fun t a tid amt d v t1 hr hd hlt => retire_corrupted t a tid amt d v t1 hr hd hlt,
   fun t a tid amt t1 h => retire_corrupted_only t a tid amt t1 h,
   fun t bk caller tid amt bn ts r d' hr hd' =>
     own_retire_report t bk caller tid amt bn ts r hr d' hd'⟩

/-- Witness for C9: on `bundleState` (account 1 holds 5 of edition 0 whose
supply is 5), retiring 3 succeeds. -/
theorem claim9_retire_witness :
    (retire_token_id bundleState 1 0 3).1 = .ok () :=
  (claim9_retire.1 bundleState 1 0 3 walkDetail0 [(0, 5)] 5 (by decide) (by decide)
    (by decide) (by decide) (by decide) (by decide) (by decide)).1

/-- C10: `transfer_compounded` with an empty bundle: when `from` has no
balance map the call fails with `InsufficientCarbonUnit`; when `from` has a
balance map — even an empty one — the call succeeds and returns the state
completely unchanged, and no `CannotTransferZeroCarbonUnit` is produced
despite the zero total transferred. -/
theorem claim10_compounded_empty :
    (∀ t a b, afind t.balances a = none →
       transfer_token_compounded t a b [] = (.error .InsufficientCarbonUnit, t)) ∧
    (∀ t a b m, afind t.balances a = some m →
       transfer_token_compounded t a b [] = (.ok (), t)) := by
  constructor
  · intro t a b h
    unfold transfer_token_compounded
    rw [h]
  · intro t a b m h
    unfold transfer_token_compounded
    rw [h]
    rfl

/-- Witness for C10: the empty bundle on the empty ledger (no balance map
for the source) fails with `InsufficientCarbonUnit`; with a balance map
present it succeeds and changes nothing. -/
theorem claim10_compounded_empty_witness :
    transfer_token_compounded initTracker 1 2 [] =
      (.error .InsufficientCarbonUnit, initTracker) ∧
    transfer_token_compounded bundleState 1 2 [] = (.ok (), bundleState) :=
  ⟨claim10_compounded_empty.1 initTracker 1 2 (by decide),
   claim10_compounded_empty.2 bundleState 1 2 [(0, 5)] (by decide)⟩
